import Mathlib

/-!
Verification development for the PSL grounding-benchmark result pipeline.

The repository consists of two scripts:

* `scripts/parse-results.py` — scans experiment log files and extracts one
  record per run (identity fields recovered from `key::value` pairs in the
  path, and `memory` / `runtime` / `grounding_time` recovered from marker
  lines in the log text);
* `scripts/analyze-results.py` — loads the tab-separated records into an
  in-memory SQLite table and runs one of four query modes (`BASE`,
  `AGGREGATE`, `RELATIVE`, `RELATIVE_AGGREGATE`), with a custom sample
  standard-deviation aggregate (`StdevFunc`).

This file gives a shallow embedding of both scripts and proves/refutes the
stated properties.  Strings are modelled as `List Char` (abbreviated `Str`),
files as lists of lines, Python `float` arithmetic as exact `ℚ` arithmetic
(`math.sqrt` as `Real.sqrt` on `ℝ`), and fallible steps (assertions, `int()`
conversions, unbound-local errors) as `Option`/`Except` failures.
-/

/-- Strings of the modelled scripts, as explicit character lists. -/
abbrev Str := List Char

/-- Characters stripped by Python `line.strip("\n ")` in
`analyze-results.fetchResults`: newline and space only. -/
def isNlSp (c : Char) : Bool := c = '\n' || c = ' '

/-- ASCII whitespace, modelling Python's `str.strip()` with no arguments and
the regex class `\s` (we model the ASCII subset; the inputs at issue are
ASCII log text). -/
def isWS (c : Char) : Bool :=
  c = ' ' || c = '\t' || c = '\n' || c = '\r' || c = '\x0b' || c = '\x0c'

/-- Python `line.strip("\n ")`: drop newline/space characters from both ends. -/
def stripNlSp (s : Str) : Str :=
  ((s.dropWhile isNlSp).reverse.dropWhile isNlSp).reverse

/-- Python `line.strip()`: drop all whitespace from both ends. -/
def stripWS (s : Str) : Str :=
  ((s.dropWhile isWS).reverse.dropWhile isWS).reverse

/-- Python `line.split("\t")`: split on tab characters, keeping empty fields
(`splitTab s` is never the empty list, matching `"".split("\t") == [""]`). -/
def splitTab : Str → List Str
  | [] => [[]]
  | c :: cs =>
    if c = '\t' then [] :: splitTab cs
    else
      match splitTab cs with
      | s :: rest => (c :: s) :: rest
      | [] => [[c]]

/-- Python `"\t".join(fields)`. -/
def joinTab : List Str → Str
  | [] => []
  | [s] => s
  | s :: rest => s ++ '\t' :: joinTab rest

/-- Value of a decimal digit character (`'0'` ↦ 0, …, `'9'` ↦ 9). -/
def digitVal (c : Char) : ℕ := c.toNat - 48

/-- The decimal digit character for `d < 10` (total, clamping at `'9'`). -/
def digitChar : ℕ → Char
  | 0 => '0' | 1 => '1' | 2 => '2' | 3 => '3' | 4 => '4'
  | 5 => '5' | 6 => '6' | 7 => '7' | 8 => '8' | _ => '9'

/-- Numeric value of a digit string read left to right. -/
def digitsToNat (l : Str) : ℕ := l.foldl (fun acc c => 10 * acc + digitVal c) 0

/-- Parse a non-empty all-digit string; `none` otherwise.  This is the digit
core shared by the model of Python `int()` and of the regex groups `(\d+)`. -/
def parseDigits (l : Str) : Option ℕ :=
  if l ≠ [] ∧ l.all Char.isDigit then some (digitsToNat l) else none

/-- Decimal rendering of a natural number: auxiliary recursion on a fuel
bound (any `fuel > n` gives the digits of `n`; structural recursion keeps the
definition kernel-computable). -/
def natCharsAux : ℕ → ℕ → Str
  | 0, _ => []
  | fuel + 1, n =>
    if n < 10 then [digitChar n]
    else natCharsAux fuel (n / 10) ++ [digitChar (n % 10)]

/-- Decimal rendering of a natural number, as produced by Python `str`. -/
def natChars (n : ℕ) : Str := natCharsAux (n + 1) n

/-- Decimal rendering of an integer, as produced by Python `str`. -/
def intChars (n : ℤ) : Str :=
  if n < 0 then '-' :: natChars n.natAbs else natChars n.toNat

/-- Model of Python `int(s)`: strip surrounding whitespace, accept an optional
sign followed by one or more decimal digits; anything else raises
(`ValueError`), modelled as `none`.  (Underscore digit separators and
non-ASCII digits accepted by CPython are not modelled; no input in this
development uses them.) -/
def pyInt (s : Str) : Option ℤ :=
  match stripWS s with
  | [] => none
  | c :: rest =>
    if c = '-' then (parseDigits rest).map (fun m : ℕ => -(m : ℤ))
    else if c = '+' then (parseDigits rest).map (fun m : ℕ => (m : ℤ))
    else (parseDigits (c :: rest)).map (fun m : ℕ => (m : ℤ))

/-- A value stored in a loaded table cell: SQL `NULL` (Python `None`), an
`INTEGER`, or `TEXT`.  The source's `BOOL_COLUMNS` and `FLOAT_COLUMNS` are
empty, so booleans are represented through the integer branch and no float
cell is ever created. -/
inductive Value
  | vnull
  | vint (n : ℤ)
  | vstr (s : Str)
  deriving DecidableEq, Repr

namespace Analyze

/-- `BOOL_COLUMNS` in `analyze-results.py` (empty). -/
def BOOL_COLUMNS : List Str := []

/-- `INT_COLUMNS` in `analyze-results.py`. -/
def INT_COLUMNS : List Str :=
  ["iteration".toList, "groundrules".toList, "memory".toList,
   "runtime".toList, "grounding_time".toList]

/-- `FLOAT_COLUMNS` in `analyze-results.py` (empty). -/
def FLOAT_COLUMNS : List Str := []

/-- Python `s.upper()` (ASCII). -/
def pyUpper (s : Str) : Str := s.map Char.toUpper

/-- Cell conversion per column name, from `analyze-results.fetchResults`:
the empty field becomes `None`; boolean columns compare `upper() == 'TRUE'`
(stored as SQLite 0/1); integer columns go through `int()` (a failure aborts
the load); everything else stays text.  The float branch is unreachable
because `FLOAT_COLUMNS` is empty, and float parsing is not modelled. -/
def convertValue (colName : Str) (s : Str) : Option Value :=
  if s = [] then some Value.vnull
  else if colName ∈ BOOL_COLUMNS then
    some (Value.vint (if pyUpper s = "TRUE".toList then 1 else 0))
  else if colName ∈ INT_COLUMNS then (pyInt s).map Value.vint
  else if colName ∈ FLOAT_COLUMNS then none
  else some (Value.vstr s)

/-- Convert one data row against the header (the source's per-index loop;
pointwise `convertValue`, aborting on the first failure). -/
def convertRow : List Str → List Str → Option (List Value)
  | n :: hs, c :: cs =>
    match convertValue n c, convertRow hs cs with
    | some v, some vs => some (v :: vs)
    | _, _ => none
  | _, _ => some []

/-- Loop body state of `analyze-results.fetchResults`: the header captured so
far (Python `None` before the first non-blank line) and the accumulated rows. -/
def fetchGo : List Str → Option (List Str) → List (List Value) →
    Option (Option (List Str) × List (List Value))
  | [], header, acc => some (header, acc.reverse)
  | l :: ls, header, acc =>
    let l' := stripNlSp l
    if l' = [] then fetchGo ls header acc
    else
      let cells := splitTab l'
      match header with
      | none => fetchGo ls (some cells) acc
      | some h =>
        if cells.length = h.length then
          match convertRow h cells with
          | some row => fetchGo ls header (row :: acc)
          | none => none
        else none

/-- `analyze-results.fetchResults`: read the tab-separated input (a list of
lines), take the first non-blank line as the header, convert every further
non-blank line into a typed row.  `none` models an aborting run (the
`assert len(header) == len(row)` failure or a `ValueError` from `int()`);
the header component is `none` when the input had no non-blank line at all. -/
def fetchResults (lines : List Str) : Option (Option (List Str) × List (List Value)) :=
  fetchGo lines none []

end Analyze

/-- State of the `StdevFunc` aggregate from `analyze-results.py` (Welford's
algorithm): running mean `M`, running sum of squared deviations `S`, and the
one-based counter `k`.  Python float arithmetic is modelled exactly over `ℚ`. -/
structure StdevFunc where
  M : ℚ
  S : ℚ
  k : ℕ
  deriving DecidableEq, Repr

namespace StdevFunc

/-- `StdevFunc.__init__`: `M = 0.0`, `S = 0.0`, `k = 1`. -/
def init : StdevFunc := ⟨0, 0, 1⟩

/-- `StdevFunc.step`: ignore `None` inputs entirely; otherwise update the
running mean and sum of squared deviations and advance the counter. -/
def step (st : StdevFunc) (value : Option ℚ) : StdevFunc :=
  match value with
  | none => st
  | some v =>
    let tM := st.M
    let M2 := st.M + (v - tM) / (st.k : ℚ)
    let S2 := st.S + (v - tM) * (v - M2)
    ⟨M2, S2, st.k + 1⟩

/-- `StdevFunc.finalize`: `None` when `k < 3`, else `math.sqrt(S / (k - 2))`. -/
noncomputable def finalize (st : StdevFunc) : Option ℝ :=
  if st.k < 3 then none
  else some (Real.sqrt ((st.S : ℝ) / ((st.k : ℝ) - 2)))

end StdevFunc

/-- The `STDEV` SQL aggregate applied to a column of (possibly null) values:
fold `step` over the column and `finalize`. -/
noncomputable def stdevAgg (vals : List (Option ℚ)) : Option ℝ :=
  (vals.foldl StdevFunc.step StdevFunc.init).finalize

/-- The number of non-null contributions in a column. -/
def countSome (vals : List (Option ℚ)) : ℕ := vals.countP Option.isSome

namespace Analyze

/-- The column layout of the loaded `Stats` table: the identity and measure
columns emitted by `parse-results.py`, with the optional `groundrules`
measure (present in the pipeline variants that report it and referenced by
the `AGGREGATE`/`RELATIVE` queries) in schema order. -/
def STD_HEADER : List Str :=
  ["experiment".toList, "example".toList, "backend".toList, "split".toList,
   "iteration".toList, "groundrules".toList, "memory".toList,
   "runtime".toList, "grounding_time".toList]

/-- One row of the `Stats` table under the standard schema.  Text columns
hold `Option Str`, integer columns `Option ℤ` (`none` = SQL `NULL`). -/
structure StatsRow where
  experiment : Option Str
  «example» : Option Str
  backend : Option Str
  split : Option Str
  iteration : Option ℤ
  groundrules : Option ℤ
  memory : Option ℤ
  runtime : Option ℤ
  grounding_time : Option ℤ
  deriving DecidableEq, Repr

/-- Read a text-typed loaded cell. -/
def asText : Value → Option (Option Str)
  | Value.vnull => some none
  | Value.vstr s => some (some s)
  | Value.vint _ => none

/-- Read an integer-typed loaded cell. -/
def asInt : Value → Option (Option ℤ)
  | Value.vnull => some none
  | Value.vint n => some (some n)
  | Value.vstr _ => none

/-- Interpret one loaded row (in `STD_HEADER` order) as a `StatsRow`. -/
def toStatsRow (cells : List Value) : Option StatsRow :=
  match cells with
  | [e, x, b, s, i, g, m, r, gt] => do
    let e' ← asText e
    let x' ← asText x
    let b' ← asText b
    let s' ← asText s
    let i' ← asInt i
    let g' ← asInt g
    let m' ← asInt m
    let r' ← asInt r
    let gt' ← asInt gt
    pure ⟨e', x', b', s', i', g', m', r', gt'⟩
  | _ => none

/-- The cells of a `StatsRow` in `STD_HEADER` (i.e. `SELECT *`) order. -/
def StatsRow.cells (r : StatsRow) : List Value :=
  [(r.experiment.map Value.vstr).getD Value.vnull,
   (r.«example».map Value.vstr).getD Value.vnull,
   (r.backend.map Value.vstr).getD Value.vnull,
   (r.split.map Value.vstr).getD Value.vnull,
   (r.iteration.map Value.vint).getD Value.vnull,
   (r.groundrules.map Value.vint).getD Value.vnull,
   (r.memory.map Value.vint).getD Value.vnull,
   (r.runtime.map Value.vint).getD Value.vnull,
   (r.grounding_time.map Value.vint).getD Value.vnull]

/-- Load the input and interpret it under the standard schema; `none` models
both a loader abort and the query-time `no such column` error raised on any
other schema (the queries reference the standard columns by name). -/
def loadTable (lines : List Str) : Option (List StatsRow) :=
  match fetchResults lines with
  | none => none
  | some (header, data) =>
    if header = some STD_HEADER then data.mapM toStatsRow else none

/-- Insert into a sorted list (the `ORDER BY` model's sorting primitive;
structural, so that concrete tables evaluate). -/
def insertBy {α : Type} (le : α → α → Bool) (a : α) : List α → List α
  | [] => [a]
  | b :: bs => if le a b then a :: b :: bs else b :: insertBy le a bs

/-- Sort a list by a boolean comparison (models `ORDER BY`; all properties
proved below depend only on the result being a permutation). -/
def sortBy {α : Type} (le : α → α → Bool) : List α → List α
  | [] => []
  | a :: as => insertBy le a (sortBy le as)

/-- Byte-order (`≤`) comparison of two strings, modelling SQLite's BINARY
collation on the ASCII text at issue. -/
def leStr : Str → Str → Bool
  | [], _ => true
  | _ :: _, [] => false
  | a :: as, b :: bs => if a = b then leStr as bs else decide (a.toNat ≤ b.toNat)

/-- `ORDER BY` comparison of nullable text columns: `NULL` sorts first. -/
def leOptStr : Option Str → Option Str → Bool
  | none, _ => true
  | some _, none => false
  | some a, some b => leStr a b

/-- `ORDER BY` comparison of nullable integer columns: `NULL` sorts first. -/
def leOptInt : Option ℤ → Option ℤ → Bool
  | none, _ => true
  | some _, none => false
  | some a, some b => decide (a ≤ b)

/-- `ORDER BY S.backend, S.«example», S.experiment` of `BASE_QUERY`. -/
def leGroupCols (a b : StatsRow) : Bool :=
  if a.backend ≠ b.backend then leOptStr a.backend b.backend
  else if a.«example» ≠ b.«example» then leOptStr a.«example» b.«example»
  else leOptStr a.experiment b.experiment

/-- `BASE_QUERY`: keep the rows whose `runtime` is not `NULL`, ordered by the
group columns.  (The ordering is a permutation only; every property proved
about `BASE` output is order-insensitive.) -/
def baseQuery (rows : List StatsRow) : List StatsRow :=
  sortBy leGroupCols (rows.filter (fun r => r.runtime.isSome))

/-- `EXAMPLE_RANK_IDS` from `analyze-results.py`: the fixed example → rank-id
mapping. -/
def RANK_IDS : List (Str × Str) :=
  [("stance-createdebate".toList, "01-stance-createdebate".toList),
   ("simple-acquaintances".toList, "02-simple-acquaintances".toList),
   ("stance-4forums".toList, "03-stance-4forums".toList),
   ("trust-prediction".toList, "04-trust-prediction".toList),
   ("friendship".toList, "05-friendship".toList),
   ("epinions".toList, "06-epinions".toList),
   ("citeseer".toList, "07-citeseer".toList),
   ("cora".toList, "08-cora".toList),
   ("user-modeling".toList, "09-user-modeling".toList),
   ("knowledge-graph-identification".toList, "10-knowledge-graph-identification".toList),
   ("yelp".toList, "11-yelp".toList),
   ("social-network-analysis".toList, "12-social-network-analysis".toList),
   ("entity-resolution".toList, "13-entity-resolution".toList),
   ("jester".toList, "14-jester".toList),
   ("lastfm".toList, "15-lastfm".toList)]

/-- The `JOIN I ON I.«example» = S.«example»` step for one `S` row: the rank-id
entries whose key equals the row's (non-`NULL`) example, paired with the row. -/
def rankMatch (s : StatsRow) : List (Str × StatsRow) :=
  RANK_IDS.filterMap (fun p =>
    match s.«example» with
    | some e => if e = p.1 then some (p.2, s) else none
    | none => none)

/-- Whether a row's example appears in `EXAMPLE_RANK_IDS`. -/
def isMapped (s : StatsRow) : Bool :=
  match s.«example» with
  | some e => RANK_IDS.any (fun p => p.1 = e)
  | none => false

/-- The `GROUP BY` key of `AGGREGATE_QUERY`: `{backend, example, experiment}`
(SQLite groups `NULL` keys together, as does equality on `Option`). -/
def groupKey (r : StatsRow) : Option Str × Option Str × Option Str :=
  (r.backend, r.«example», r.experiment)

/-- SQL `AVG` over a column: mean of the non-null values, `NULL` if none. -/
def sqlAvg (l : List (Option ℚ)) : Option ℚ :=
  let v := l.filterMap id
  if v = [] then none else some (v.sum / (v.length : ℚ))

/-- SQL `COUNT(col)`: the number of non-null values. -/
def sqlCount {α : Type} (l : List (Option α)) : ℕ := l.countP Option.isSome

/-- One output row of `AGGREGATE_QUERY`, in `SELECT` order. -/
structure AggRow where
  id : Option Str
  backend : Option Str
  «example» : Option Str
  experiment : Option Str
  numIterations : ℕ
  groundrules : Option ℚ
  memory_mean : Option ℚ
  memory_std : Option ℝ
  runtime_mean : Option ℚ
  runtime_std : Option ℝ
  grounding_time_mean : Option ℚ
  grounding_time_std : Option ℝ

/-- Build one `AGGREGATE` group row from the joined `(id, S-row)` pairs of the
group (the bare `I.id` column takes the value from a row of the group). -/
noncomputable def mkAggRow (k : Option Str × Option Str × Option Str)
    (g : List (Str × StatsRow)) : AggRow :=
  { id := g.head?.map Prod.fst
    backend := k.1
    «example» := k.2.1
    experiment := k.2.2
    numIterations := sqlCount (g.map (fun p => p.2.split))
    groundrules := sqlAvg (g.map (fun p => p.2.groundrules.map (fun n => (n : ℚ))))
    memory_mean := sqlAvg (g.map (fun p => p.2.memory.map (fun n => (n : ℚ))))
    memory_std := stdevAgg (g.map (fun p => p.2.memory.map (fun n => (n : ℚ))))
    runtime_mean := sqlAvg (g.map (fun p => p.2.runtime.map (fun n => (n : ℚ))))
    runtime_std := stdevAgg (g.map (fun p => p.2.runtime.map (fun n => (n : ℚ))))
    grounding_time_mean :=
      sqlAvg (g.map (fun p => p.2.grounding_time.map (fun n => (n : ℚ))))
    grounding_time_std :=
      stdevAgg (g.map (fun p => p.2.grounding_time.map (fun n => (n : ℚ)))) }

/-- `ORDER BY I.id, S.«example», S.backend, S.backend, S.«example», S.experiment`
of `AGGREGATE_QUERY`. -/
def leAggRow (a b : AggRow) : Bool :=
  if a.id ≠ b.id then leOptStr a.id b.id
  else if a.«example» ≠ b.«example» then leOptStr a.«example» b.«example»
  else if a.backend ≠ b.backend then leOptStr a.backend b.backend
  else leOptStr a.experiment b.experiment

/-- `AGGREGATE_QUERY`: join `BASE` against the rank-id table on `example`,
group by `{backend, example, experiment}`, and emit one aggregate row per
group (ordered; the ordering is again a permutation only). -/
noncomputable def aggregateQuery (rows : List StatsRow) : List AggRow :=
  let J := (baseQuery rows).flatMap rankMatch
  let keys := (J.map (fun p => groupKey p.2)).dedup
  sortBy leAggRow (keys.map (fun k =>
    mkAggRow k (J.filter (fun p => decide (groupKey p.2 = k)))))

/-- SQL `USING` join condition on one nullable column: both values non-null
and equal (`NULL = NULL` is not a match in SQL). -/
def joinEq {α : Type} [DecidableEq α] : Option α → Option α → Bool
  | some a, some b => decide (a = b)
  | _, _ => false

/-- SQL division with a `REAL` cast of the denominator, as in
`S1.memory / CAST(S2.memory AS REAL)`: `NULL` if either operand is `NULL`
or the denominator is zero (SQLite yields `NULL` on division by zero). -/
def sqlDiv (a b : Option ℤ) : Option ℚ :=
  match a, b with
  | some x, some y => if y = 0 then none else some ((x : ℚ) / (y : ℚ))
  | _, _ => none

/-- The reference backend of `RELATIVE_QUERY` (`S2.backend = 'Postgres'`). -/
def REFERENCE_BACKEND : Str := "Postgres".toList

/-- The join pairs of `RELATIVE_QUERY`: `BASE` self-joined `USING (example,
experiment, split, iteration)`, keeping pairs whose right side has the
reference backend. -/
def relPairs (rows : List StatsRow) : List (StatsRow × StatsRow) :=
  (baseQuery rows).flatMap (fun s1 =>
    (baseQuery rows).filterMap (fun s2 =>
      if joinEq s1.«example» s2.«example» && joinEq s1.experiment s2.experiment
          && joinEq s1.split s2.split && joinEq s1.iteration s2.iteration
          && decide (s2.backend = some REFERENCE_BACKEND) then
        some (s1, s2)
      else none))

/-- One output row of `RELATIVE_QUERY`, in `SELECT` order. -/
structure RelRow where
  backend : Option Str
  «example» : Option Str
  experiment : Option Str
  split : Option Str
  iteration : Option ℤ
  groundrules : Option ℤ
  relative_memory : Option ℚ
  relative_runtime : Option ℚ
  relative_grounding_time : Option ℚ
  deriving DecidableEq, Repr

/-- Build one `RELATIVE` output row from a join pair. -/
def mkRelRow (s1 s2 : StatsRow) : RelRow :=
  { backend := s1.backend
    «example» := s1.«example»
    experiment := s1.experiment
    split := s1.split
    iteration := s1.iteration
    groundrules := s1.groundrules
    relative_memory := sqlDiv s1.memory s2.memory
    relative_runtime := sqlDiv s1.runtime s2.runtime
    relative_grounding_time := sqlDiv s1.grounding_time s2.grounding_time }

/-- `ORDER BY` of `RELATIVE_QUERY`: group columns, then split, then iteration. -/
def leRelRow (a b : RelRow) : Bool :=
  if a.backend ≠ b.backend then leOptStr a.backend b.backend
  else if a.«example» ≠ b.«example» then leOptStr a.«example» b.«example»
  else if a.experiment ≠ b.experiment then leOptStr a.experiment b.experiment
  else if a.split ≠ b.split then leOptStr a.split b.split
  else leOptInt a.iteration b.iteration

/-- `RELATIVE_QUERY`: one output row per join pair (ordered; a permutation). -/
def relativeQuery (rows : List StatsRow) : List RelRow :=
  sortBy leRelRow ((relPairs rows).map (fun p => mkRelRow p.1 p.2))

/-- The rank-id join step of `RELATIVE_AGGREGATE_QUERY` for one `RELATIVE`
row. -/
def relRankMatch (r : RelRow) : List (Str × RelRow) :=
  RANK_IDS.filterMap (fun p =>
    match r.«example» with
    | some e => if e = p.1 then some (p.2, r) else none
    | none => none)

/-- One output row of `RELATIVE_AGGREGATE_QUERY`, in `SELECT` order. -/
structure RelAggRow where
  id : Option Str
  backend : Option Str
  «example» : Option Str
  experiment : Option Str
  numIterations : ℕ
  groundrules : Option ℚ
  relative_memory_mean : Option ℚ
  relative_memory_std : Option ℝ
  relative_runtime_mean : Option ℚ
  relative_runtime_std : Option ℝ
  relative_grounding_time_mean : Option ℚ
  relative_grounding_time_std : Option ℝ

/-- Build one `RELATIVE_AGGREGATE` group row from the joined `(id, R-row)`
pairs of the group. -/
noncomputable def mkRelAggRow (k : Str × Option Str × Option Str × Option Str)
    (g : List (Str × RelRow)) : RelAggRow :=
  { id := some k.1
    backend := k.2.1
    «example» := k.2.2.1
    experiment := k.2.2.2
    numIterations := sqlCount (g.map (fun p => p.2.split))
    groundrules := sqlAvg (g.map (fun p => p.2.groundrules.map (fun n => (n : ℚ))))
    relative_memory_mean := sqlAvg (g.map (fun p => p.2.relative_memory))
    relative_memory_std := stdevAgg (g.map (fun p => p.2.relative_memory))
    relative_runtime_mean := sqlAvg (g.map (fun p => p.2.relative_runtime))
    relative_runtime_std := stdevAgg (g.map (fun p => p.2.relative_runtime))
    relative_grounding_time_mean :=
      sqlAvg (g.map (fun p => p.2.relative_grounding_time))
    relative_grounding_time_std :=
      stdevAgg (g.map (fun p => p.2.relative_grounding_time)) }

/-- `ORDER BY I.id, S.backend, S.«example», S.experiment` of
`RELATIVE_AGGREGATE_QUERY`. -/
def leRelAggRow (a b : RelAggRow) : Bool :=
  if a.id ≠ b.id then leOptStr a.id b.id
  else if a.backend ≠ b.backend then leOptStr a.backend b.backend
  else if a.«example» ≠ b.«example» then leOptStr a.«example» b.«example»
  else leOptStr a.experiment b.experiment

/-- `RELATIVE_AGGREGATE_QUERY`: group the `RELATIVE` output (joined against
the rank-id table) by `{I.id, backend, example, experiment}`. -/
noncomputable def relAggQuery (rows : List StatsRow) : List RelAggRow :=
  let J := (relativeQuery rows).flatMap relRankMatch
  let keys := (J.map (fun p => (p.1, p.2.backend, p.2.«example», p.2.experiment))).dedup
  sortBy leRelAggRow (keys.map (fun k =>
    mkRelAggRow k (J.filter (fun p =>
      decide ((p.1, p.2.backend, p.2.«example», p.2.experiment) = k)))))

/-- A printed output cell of `main`: loaded-table values plus the `REAL`
results of `AVG`/`STDEV`/division (whose Python float rendering is not
modelled — output is embedded at the row level). -/
inductive EValue
  | enull
  | eint (n : ℤ)
  | estr (s : Str)
  | ereal (x : ℝ)

/-- Embed a loaded-table cell into an output cell. -/
def Value.toE : Value → EValue
  | Value.vnull => EValue.enull
  | Value.vint n => EValue.eint n
  | Value.vstr s => EValue.estr s

/-- Output cell for a nullable text column. -/
def eOfStr (o : Option Str) : EValue := (o.map EValue.estr).getD EValue.enull

/-- Output cell for a nullable integer column. -/
def eOfInt (o : Option ℤ) : EValue := (o.map EValue.eint).getD EValue.enull

/-- Output cell for a nullable rational (`REAL`) column. -/
noncomputable def eOfRat (o : Option ℚ) : EValue :=
  (o.map (fun q => EValue.ereal (q : ℝ))).getD EValue.enull

/-- Output cell for a nullable real (`REAL`) column. -/
noncomputable def eOfReal (o : Option ℝ) : EValue :=
  (o.map EValue.ereal).getD EValue.enull

/-- The printed cells of an `AGGREGATE` output row. -/
noncomputable def AggRow.cells (r : AggRow) : List EValue :=
  [eOfStr r.id, eOfStr r.backend, eOfStr r.«example», eOfStr r.experiment,
   EValue.eint r.numIterations, eOfRat r.groundrules,
   eOfRat r.memory_mean, eOfReal r.memory_std,
   eOfRat r.runtime_mean, eOfReal r.runtime_std,
   eOfRat r.grounding_time_mean, eOfReal r.grounding_time_std]

/-- The printed cells of a `RELATIVE` output row. -/
noncomputable def RelRow.cells (r : RelRow) : List EValue :=
  [eOfStr r.backend, eOfStr r.«example», eOfStr r.experiment, eOfStr r.split,
   eOfInt r.iteration, eOfInt r.groundrules, eOfRat r.relative_memory,
   eOfRat r.relative_runtime, eOfRat r.relative_grounding_time]

/-- The printed cells of a `RELATIVE_AGGREGATE` output row. -/
noncomputable def RelAggRow.cells (r : RelAggRow) : List EValue :=
  [eOfStr r.id, eOfStr r.backend, eOfStr r.«example», eOfStr r.experiment,
   EValue.eint r.numIterations, eOfRat r.groundrules,
   eOfRat r.relative_memory_mean, eOfReal r.relative_memory_std,
   eOfRat r.relative_runtime_mean, eOfReal r.relative_runtime_std,
   eOfRat r.relative_grounding_time_mean, eOfReal r.relative_grounding_time_std]

/-- The four run modes of `analyze-results.py`. -/
inductive Mode
  | BASE
  | AGGREGATE
  | RELATIVE
  | RELATIVE_AGGREGATE
  deriving DecidableEq, Repr

/-- Execute the selected mode's query over the loaded table, producing the
printed data rows. -/
noncomputable def runMode : Mode → List StatsRow → List (List EValue)
  | Mode.BASE, rows => (baseQuery rows).map (fun r => r.cells.map Value.toE)
  | Mode.AGGREGATE, rows => (aggregateQuery rows).map AggRow.cells
  | Mode.RELATIVE, rows => (relativeQuery rows).map RelRow.cells
  | Mode.RELATIVE_AGGREGATE, rows => (relAggQuery rows).map RelAggRow.cells

/-- The header row printed by `main` (`rows.description`) for each mode. -/
def outHeader : Mode → List EValue
  | Mode.BASE => STD_HEADER.map EValue.estr
  | Mode.AGGREGATE =>
    ["id".toList, "backend".toList, "example".toList, "experiment".toList,
     "numIterations".toList, "groundrules".toList, "memory_mean".toList,
     "memory_std".toList, "runtime_mean".toList, "runtime_std".toList,
     "grounding_time_mean".toList, "grounding_time_std".toList].map EValue.estr
  | Mode.RELATIVE =>
    ["backend".toList, "example".toList, "experiment".toList, "split".toList,
     "iteration".toList, "groundrules".toList, "relative_memory".toList,
     "relative_runtime".toList, "relative_grounding_time".toList].map EValue.estr
  | Mode.RELATIVE_AGGREGATE =>
    ["id".toList, "backend".toList, "example".toList, "experiment".toList,
     "numIterations".toList, "groundrules".toList, "relative_memory_mean".toList,
     "relative_memory_std".toList, "relative_runtime_mean".toList,
     "relative_runtime_std".toList, "relative_grounding_time_mean".toList,
     "relative_grounding_time_std".toList].map EValue.estr

/-- `analyze-results.main`, at the granularity of printed rows: load the
input; with zero data rows return **before** creating any table or printing
anything; otherwise create the table (standard schema; the queries raise on
tables missing their referenced columns, modelled as `none`) and print the
header row followed by the selected query's rows. -/
noncomputable def main (mode : Mode) (lines : List Str) : Option (List (List EValue)) :=
  match Analyze.fetchResults lines with
  | none => none
  | some (header, data) =>
    if data.length = 0 then some []
    else
      match header with
      | some h =>
        if h = STD_HEADER then
          match data.mapM toStatsRow with
          | some rows => some (outHeader mode :: runMode mode rows)
          | none => none
        else none
      | none => none


/-- Python `str` rendering of a cell as printed by `main`: `None` for SQL
`NULL`, the decimal digits for integers, the text itself for strings. -/
def renderValue : Value → Str
  | Value.vnull => "None".toList
  | Value.vint n => intChars n
  | Value.vstr s => s

/-- One printed output line of `BASE` mode: the tab-joined `str` renderings
of the row's cells. -/
def renderRow (cells : List Value) : Str := joinTab (cells.map renderValue)

/-- The full printed output of `BASE` mode as text: the header line followed
by one rendered line per `BASE` row. -/
def baseOutputLines (rows : List StatsRow) : List Str :=
  joinTab STD_HEADER :: (baseQuery rows).map (fun r => renderRow r.cells)

/-- All nine columns of the row are non-`NULL`. -/
def noNulls (r : StatsRow) : Bool :=
  r.experiment.isSome && r.«example».isSome && r.backend.isSome && r.split.isSome &&
  r.iteration.isSome && r.groundrules.isSome && r.memory.isSome &&
  r.runtime.isSome && r.grounding_time.isSome

/-- Shape invariants every row loaded from tab-separated text satisfies: text
values are non-empty and tab-free (they arise from splitting a line on tabs,
with the empty field mapped to `NULL`), and the first column's text cannot
start with a stripped character (the line was stripped before splitting). -/
def RowWF (r : StatsRow) : Prop :=
  (∀ s, r.experiment = some s →
    s ≠ [] ∧ '\t' ∉ s ∧ ∀ c, s.head? = some c → isNlSp c = false) ∧
  (∀ s, r.«example» = some s → s ≠ [] ∧ '\t' ∉ s) ∧
  (∀ s, r.backend = some s → s ≠ [] ∧ '\t' ∉ s) ∧
  (∀ s, r.split = some s → s ≠ [] ∧ '\t' ∉ s)

/-- A concrete non-reference row used in witnesses below. -/
def wrow1 : StatsRow :=
  ⟨some ['e'], some ['x'], some ['b'], some ['0'], some 0, none,
    some 5, some 9, some 7⟩

/-- A concrete reference-backend (`Postgres`) row with zero measures, used in
witnesses below. -/
def wrow2 : StatsRow :=
  ⟨some ['e'], some ['x'], some "Postgres".toList, some ['0'], some 0, none,
    some 0, some 0, some 0⟩

/-- A concrete row whose example (`zzz`) has no rank-id entry, used in the
aggregate-count counterexample. -/
def wrow3 : StatsRow :=
  ⟨some ['e'], some ['z', 'z', 'z'], some ['b'], some ['0'], some 0, none,
    some 1, some 1, none⟩

/-- A concrete loaded row with a `NULL` memory cell (runtime present), used
in the round-trip counterexample. -/
def wrow4 : StatsRow :=
  ⟨some ['e'], some ['x'], some ['b'], some ['0'], some 0, some 1, none,
    some 3, some 4⟩

/-- A concrete fully non-null loaded row, used in the round-trip witness. -/
def wrow5 : StatsRow :=
  ⟨some ['e'], some ['x'], some ['b'], some ['0'], some 0, some 1, some 2,
    some 3, some 4⟩

end Analyze

namespace ParseResults

/-- The character class `[\w\-\.]` of the identity regex in
`parse-results.parseLog` (ASCII `\w` plus hyphen and dot). -/
def isIdChar (c : Char) : Bool := c.isAlphanum || c = '_' || c = '-' || c = '.'

/-- Match one regex pattern character against an input character: an
unescaped `'.'` in the patterns below is the regex wildcard. -/
def patChar (p c : Char) : Bool := p = '.' || p = c

/-- Consume a pattern as a prefix of the input (literal characters, with
`'.'` matching anything); return the rest on success. -/
def eatPat : Str → Str → Option Str
  | [], l => some l
  | _ :: _, [] => none
  | p :: ps, c :: cs => if patChar p c then eatPat ps cs else none

/-- `re.search` of a fixed pattern with no anchors: does the pattern match at
some position of the line? -/
def containsPat (pat : Str) : Str → Bool
  | [] => (eatPat pat []).isSome
  | c :: cs => (eatPat pat (c :: cs)).isSome || containsPat pat cs

/-- One match attempt of `([\w\-\.]+)::([\w\-\.]+)` anchored at the start of
`l`: the greedy key run, the literal `::`, the greedy value run.  Returns the
key, the value, and the (positive) number of characters consumed. -/
def matchPairAt (l : Str) : Option (Str × Str × ℕ) :=
  let key := l.takeWhile isIdChar
  if key = [] then none
  else
    match l.drop key.length with
    | ':' :: ':' :: r2 =>
      let val := r2.takeWhile isIdChar
      if val = [] then none
      else some (key, val, key.length + 2 + val.length)
    | _ => none

/-- The scan loop of `findPairs`, on a fuel bound: every step consumes at
least one character, so any `fuel ≥ length` is sufficient (structural
recursion keeps the definition kernel-computable). -/
def findPairsAux : ℕ → Str → List (Str × Str)
  | 0, _ => []
  | _, [] => []
  | fuel + 1, c :: cs =>
    match matchPairAt (c :: cs) with
    | some (k, v, n) => (k, v) :: findPairsAux fuel ((c :: cs).drop n)
    | none => findPairsAux fuel cs

/-- `re.findall(r'([\w\-\.]+)::([\w\-\.]+)', path)`: scan left to right for
non-overlapping matches, advancing one character after a failed position. -/
def findPairs (l : Str) : List (Str × Str) := findPairsAux l.length l

/-- `^(\d+)\s+\[`: a line-initial timestamp — one or more digits, one or more
whitespace characters, an opening bracket. -/
def matchTimestamp (l : Str) : Option ℕ :=
  let ds := l.takeWhile Char.isDigit
  if ds = [] then none
  else
    let r := l.drop ds.length
    let ws := r.takeWhile isWS
    if ws = [] then none
    else
      match r.drop ws.length with
      | '[' :: _ => some (digitsToNat ds)
      | _ => none

/-- The grounding-start marker pattern of `parse-results.parseLog`. -/
def startPat : Str :=
  "INFO  org.linqs.psl.application.inference.InferenceApplication  - Grounding out model.".toList

/-- The grounding-complete marker pattern of `parse-results.parseLog`. -/
def completePat : Str :=
  "INFO  org.linqs.psl.application.inference.InferenceApplication  - Grounding complete.".toList

/-- The literal head of the memory-summary pattern, up to `Min:`. -/
def memPat1 : Str :=
  "INFO  org.linqs.psl.util.RuntimeStats  - Used Memory (bytes)  -- Min:".toList

/-- Consume `\s*`. -/
def eatWS (l : Str) : Str := l.dropWhile isWS

/-- Consume a greedy `(\d+)` group; return its value and the rest. -/
def eatDigits (l : Str) : Option (ℕ × Str) :=
  let ds := l.takeWhile Char.isDigit
  if ds = [] then none else some (digitsToNat ds, l.drop ds.length)

/-- One end-anchored match attempt of the memory-summary pattern
`...Min:\s*(\d+), Max:\s*(\d+), Mean:\s*(\d+), Count:\s*(\d+)$` at the start
of `l`, returning the `Max` capture (group 2). -/
def matchMemAt (l : Str) : Option ℕ := do
  let r1 ← eatPat memPat1 l
  let (_, r2) ← eatDigits (eatWS r1)
  let r3 ← eatPat ", Max:".toList r2
  let (mx, r4) ← eatDigits (eatWS r3)
  let r5 ← eatPat ", Mean:".toList r4
  let (_, r6) ← eatDigits (eatWS r5)
  let r7 ← eatPat ", Count:".toList r6
  let (_, r8) ← eatDigits (eatWS r7)
  if r8 = [] then some mx else none

/-- `re.search` of the memory-summary pattern: the leftmost match's `Max`
capture. -/
def matchMemory : Str → Option ℕ
  | [] => matchMemAt []
  | c :: cs =>
    match matchMemAt (c :: cs) with
    | some v => some v
    | none => matchMemory cs

/-- A value of the Python results dict in `parseLog`: identity values are the
captured path strings, measured values are integers. -/
inductive RVal
  | rstr (s : Str)
  | rint (n : ℤ)
  deriving DecidableEq, Repr

/-- The results dict, as an insertion list (later inserts shadow earlier
ones, i.e. Python's overwrite-on-assignment). -/
abbrev Dict := List (Str × RVal)

/-- `results[k] = v`. -/
def dinsert (d : Dict) (k : Str) (v : RVal) : Dict := (k, v) :: d

/-- `results.get(k)`: the most recently inserted value for `k`. -/
def dlookup (d : Dict) (k : Str) : Option RVal :=
  (d.find? (fun p => decide (p.1 = k))).map Prod.snd

/-- The identity-recovery step of `parseLog`: every `key::value` pair found in
the path is assigned into the dict in order (later pairs overwrite earlier
ones). -/
def pathDict (path : Str) : Dict :=
  (findPairs path).foldl (fun d p => dinsert d p.1 (RVal.rstr p.2)) []

/-- The `runtime` results key. -/
def runtimeKey : Str := "runtime".toList

/-- The `grounding_time` results key. -/
def gtimeKey : Str := "grounding_time".toList

/-- The `memory` results key. -/
def memoryKey : Str := "memory".toList

/-- The scan state of `parseLog`'s line loop: the Python local `time`
(`none` = not yet bound — reading it raises `UnboundLocalError`), the local
`groundingStartTime`, and the results dict. -/
structure ScanSt where
  time : Option ℕ
  gst : Option ℕ
  results : Dict
  deriving DecidableEq, Repr

/-- One iteration of `parseLog`'s loop: strip the line, skip it if blank,
update the current time on a timestamp match, then handle the grounding-start
marker, the grounding-complete marker, and the memory-summary line in source
order.  `Except.error ()` models the `UnboundLocalError` raised when a marker
line is reached before any timestamp assigned `time`. -/
def parseLine (st : ScanSt) (rawLine : Str) : Except Unit ScanSt :=
  let l := stripWS rawLine
  if l = [] then Except.ok st
  else
    let time : Option ℕ :=
      match matchTimestamp l with
      | some t => some t
      | none => st.time
    let stepStart : Except Unit (Option ℕ) :=
      if containsPat startPat l then
        match time with
        | none => Except.error ()
        | some t => Except.ok (some t)
      else Except.ok st.gst
    match stepStart with
    | Except.error e => Except.error e
    | Except.ok gst =>
      let stepComplete : Except Unit Dict :=
        if containsPat completePat l then
          match time with
          | none => Except.error ()
          | some t =>
            let d := dinsert st.results runtimeKey (RVal.rint t)
            match gst with
            | some g => Except.ok (dinsert d gtimeKey (RVal.rint ((t : ℤ) - g)))
            | none => Except.ok d
        else Except.ok st.results
      match stepComplete with
      | Except.error e => Except.error e
      | Except.ok d1 =>
        let d2 : Dict :=
          match matchMemory l with
          | some mx => dinsert d1 memoryKey (RVal.rint mx)
          | none => d1
        Except.ok ⟨time, gst, d2⟩

/-- Fold `parseLine` over the log's lines. -/
def scanLines : ScanSt → List Str → Except Unit ScanSt
  | st, [] => Except.ok st
  | st, l :: ls =>
    match parseLine st l with
    | Except.error e => Except.error e
    | Except.ok st2 => scanLines st2 ls

/-- `parse-results.parseLog` (the RecordExtractor): seed the results dict from
the path's `key::value` pairs, scan the log lines, and return `none` (the
"incomplete run" sentinel) when no `memory` key is present at the end.
`Except.error ()` models an escaping exception. -/
def parseLog (path : Str) (lines : List Str) : Except Unit (Option Dict) :=
  match scanLines ⟨none, none, pathDict path⟩ lines with
  | Except.error e => Except.error e
  | Except.ok st =>
    if (dlookup st.results memoryKey).isSome then Except.ok (some st.results)
    else Except.ok none

/-- The memory-summary `Max` captures of a log, in scan order (one entry per
line whose stripped text matches the memory pattern). -/
def memVals (lines : List Str) : List ℕ :=
  lines.filterMap (fun l => matchMemory (stripWS l))

/-- Does this (raw) line carry the grounding-start marker? -/
def hasStart (l : Str) : Bool := containsPat startPat (stripWS l)

/-- Does this (raw) line carry the grounding-complete marker? -/
def hasComplete (l : Str) : Bool := containsPat completePat (stripWS l)

/-- Scan a log for a grounding-complete marker that is preceded — possibly on
the same line — by a grounding-start marker; `seen` records whether a start
marker was already seen. -/
def pairSeen : Bool → List Str → Bool
  | _, [] => false
  | seen, l :: ls =>
    let s := seen || hasStart l
    (s && hasComplete l) || pairSeen s ls

/-- The claim's marker condition: some grounding-complete marker is seen with
a grounding-start marker at or before it in scan order. -/
def groundingPair (lines : List Str) : Bool := pairSeen false lines

/-- Whether a parse outcome is a record that carries `grounding_time`. -/
def gtPresent (r : Except Unit (Option Dict)) : Bool :=
  match r with
  | Except.ok (some d) => (dlookup d gtimeKey).isSome
  | _ => false

end ParseResults

/-! ## General lemmas about the string model -/

theorem insertBy_perm {α : Type} (le : α → α → Bool) (a : α) (l : List α) :
    (Analyze.insertBy le a l).Perm (a :: l) := by
  induction l with
  | nil => simp [Analyze.insertBy]
  | cons b bs ih =>
    rw [Analyze.insertBy]
    by_cases h : le a b
    · rw [if_pos h]
    · rw [if_neg h]
      exact (ih.cons b).trans (List.Perm.swap a b bs)

theorem sortBy_perm {α : Type} (le : α → α → Bool) (l : List α) :
    (Analyze.sortBy le l).Perm l := by
  induction l with
  | nil => simp [Analyze.sortBy]
  | cons a as ih => exact (insertBy_perm le a (Analyze.sortBy le as)).trans (ih.cons a)

theorem splitTab_ne_nil (s : Str) : splitTab s ≠ [] := by
  cases s with
  | nil => simp [splitTab]
  | cons c cs =>
    by_cases h : c = '\t'
    · simp [splitTab, h]
    · simp only [splitTab, if_neg h]
      cases hs : splitTab cs <;> simp

theorem no_tab_of_mem_splitTab {s : Str} {t : Str} (h : t ∈ splitTab s) : '\t' ∉ t := by
  induction s generalizing t with
  | nil => simp [splitTab] at h; simp [h]
  | cons c cs ih =>
    by_cases hc : c = '\t'
    · simp only [splitTab, if_pos hc, List.mem_cons] at h
      rcases h with h | h
      · simp [h]
      · exact ih h
    · simp only [splitTab, if_neg hc] at h
      cases hs : splitTab cs with
      | nil => exact absurd hs (splitTab_ne_nil cs)
      | cons u us =>
        rw [hs, List.mem_cons] at h
        rcases h with h | h
        · subst h
          intro hmem
          rcases List.mem_cons.mp hmem with h | h
          · exact hc h.symm
          · exact ih (hs ▸ List.mem_cons_self u us) h
        · exact ih (hs ▸ List.mem_cons_of_mem u h)

theorem splitTab_no_tab {t : Str} (h : '\t' ∉ t) : splitTab t = [t] := by
  induction t with
  | nil => simp [splitTab]
  | cons c cs ih =>
    have hc : c ≠ '\t' := fun hc => h (hc ▸ List.mem_cons_self c cs)
    have hcs : '\t' ∉ cs := fun hm => h (List.mem_cons_of_mem c hm)
    simp [splitTab, if_neg hc, ih hcs]

theorem splitTab_append_tab {t : Str} (r : Str) (h : '\t' ∉ t) :
    splitTab (t ++ '\t' :: r) = t :: splitTab r := by
  induction t with
  | nil => simp [splitTab]
  | cons c cs ih =>
    have hc : c ≠ '\t' := fun hc => h (hc ▸ List.mem_cons_self c cs)
    have hcs : '\t' ∉ cs := fun hm => h (List.mem_cons_of_mem c hm)
    simp only [List.cons_append, splitTab, if_neg hc, List.append_eq, ih hcs]

theorem splitTab_joinTab : ∀ (cells : List Str), cells ≠ [] →
    (∀ t ∈ cells, '\t' ∉ t) → splitTab (joinTab cells) = cells := by
  intro cells
  induction cells with
  | nil => intro h; exact absurd rfl h
  | cons t ts ih =>
    intro _ hno
    have htab : '\t' ∉ t := hno t (List.mem_cons_self t ts)
    cases ts with
    | nil => simpa [joinTab] using splitTab_no_tab htab
    | cons u us =>
      have hrest : splitTab (joinTab (u :: us)) = u :: us :=
        ih (by simp) (fun x hx => hno x (List.mem_cons_of_mem t hx))
      simp only [joinTab, splitTab_append_tab _ htab, hrest]

theorem splitTab_cons_of_ne_tab {c : Char} (cs : Str) (hc : c ≠ '\t') :
    ∃ t rest, splitTab (c :: cs) = (c :: t) :: rest := by
  simp only [splitTab, if_neg hc]
  cases hs : splitTab cs with
  | nil => exact absurd hs (splitTab_ne_nil cs)
  | cons u us => exact ⟨u, us, rfl⟩

theorem mem_of_getLast?_eq {α : Type} {l : List α} {c : α} (h : l.getLast? = some c) :
    c ∈ l := by
  induction l with
  | nil => simp at h
  | cons a as ih =>
    cases as with
    | nil => simp_all [List.getLast?]
    | cons b bs =>
      rw [List.getLast?_cons_cons] at h
      exact List.mem_cons_of_mem a (ih h)

theorem head?_dropWhile_not {p : Char → Bool} {l : Str} {c : Char}
    (h : (l.dropWhile p).head? = some c) : p c = false := by
  induction l with
  | nil => simp at h
  | cons a as ih =>
    rw [List.dropWhile_cons] at h
    by_cases ha : p a
    · exact ih (by simpa [ha] using h)
    · rw [if_neg ha] at h
      simp only [List.head?_cons, Option.some.injEq] at h
      subst h
      simpa using ha

theorem dropWhile_eq_self_of_head {p : Char → Bool} {l : Str}
    (h : ∀ c, l.head? = some c → p c = false) : l.dropWhile p = l := by
  cases l with
  | nil => simp
  | cons c cs => simp [List.dropWhile_cons, h c rfl]

theorem strip_eq_self_of_ends {p : Char → Bool} {l : Str}
    (h1 : ∀ c, l.head? = some c → p c = false)
    (h2 : ∀ c, l.getLast? = some c → p c = false) :
    ((l.dropWhile p).reverse.dropWhile p).reverse = l := by
  rw [dropWhile_eq_self_of_head h1]
  rw [dropWhile_eq_self_of_head (fun c hc => h2 c (by rwa [List.head?_reverse] at hc))]
  exact List.reverse_reverse l

theorem strip_eq_self_of_all {p : Char → Bool} {l : Str}
    (h : ∀ c ∈ l, p c = false) :
    ((l.dropWhile p).reverse.dropWhile p).reverse = l := by
  refine strip_eq_self_of_ends (fun c hc => ?_) (fun c hc => ?_)
  · refine h c ?_
    cases l with
    | nil => simp at hc
    | cons a as => simp at hc; simp [hc]
  · exact h c (mem_of_getLast?_eq hc)

theorem strip_getLast_not {p : Char → Bool} {s : Str} {c : Char}
    (h : (((s.dropWhile p).reverse.dropWhile p).reverse).getLast? = some c) :
    p c = false := by
  rw [List.getLast?_reverse] at h
  exact head?_dropWhile_not h

theorem strip_head_not {p : Char → Bool} {s : Str} {c : Char}
    (h : (((s.dropWhile p).reverse.dropWhile p).reverse).head? = some c) :
    p c = false := by
  have hpre : (((s.dropWhile p).reverse.dropWhile p).reverse) <+: s.dropWhile p := by
    rw [← List.reverse_suffix, List.reverse_reverse]
    exact List.dropWhile_suffix p
  obtain ⟨t, ht⟩ := hpre
  apply head?_dropWhile_not (l := s) (p := p)
  rw [← ht]
  cases hr : ((s.dropWhile p).reverse.dropWhile p).reverse with
  | nil => rw [hr] at h; simp at h
  | cons a as => rw [hr] at h; simpa using h

/-! ## Decimal rendering and parsing round trip -/

theorem mem_natCharsAux : ∀ (fuel n : ℕ) {c : Char}, n < fuel →
    c ∈ natCharsAux fuel n → ∃ d, d < 10 ∧ c = digitChar d := by
  intro fuel
  induction fuel with
  | zero => intro n c h; omega
  | succ f ih =>
    intro n c hn h
    rw [natCharsAux] at h
    by_cases h10 : n < 10
    · rw [if_pos h10] at h
      simp at h
      exact ⟨n, h10, h⟩
    · rw [if_neg h10] at h
      rcases List.mem_append.mp h with hm | hm
      · exact ih (n / 10) (by omega) hm
      · simp at hm
        exact ⟨n % 10, Nat.mod_lt n (by omega), hm⟩

theorem mem_natChars {n : ℕ} {c : Char} (h : c ∈ natChars n) :
    ∃ d, d < 10 ∧ c = digitChar d :=
  mem_natCharsAux (n + 1) n (by omega) h

theorem digitChar_isDigit {d : ℕ} (h : d < 10) : (digitChar d).isDigit = true := by
  interval_cases d <;> decide

theorem digitVal_digitChar {d : ℕ} (h : d < 10) : digitVal (digitChar d) = d := by
  interval_cases d <;> decide

theorem digitsToNat_append (l1 l2 : Str) :
    digitsToNat (l1 ++ l2) =
      l2.foldl (fun acc c => 10 * acc + digitVal c) (digitsToNat l1) := by
  simp [digitsToNat, List.foldl_append]

theorem natCharsAux_ne_nil : ∀ (fuel n : ℕ), n < fuel → natCharsAux fuel n ≠ [] := by
  intro fuel
  induction fuel with
  | zero => intro n h; omega
  | succ f _ =>
    intro n hn
    rw [natCharsAux]
    split
    · simp
    · simp

theorem natChars_ne_nil (n : ℕ) : natChars n ≠ [] :=
  natCharsAux_ne_nil (n + 1) n (by omega)

theorem natChars_all_digits (n : ℕ) : ∀ c ∈ natChars n, c.isDigit = true := by
  intro c hc
  obtain ⟨d, hd, rfl⟩ := mem_natChars hc
  exact digitChar_isDigit hd

theorem digitsToNat_natCharsAux : ∀ (fuel n : ℕ), n < fuel →
    digitsToNat (natCharsAux fuel n) = n := by
  intro fuel
  induction fuel with
  | zero => intro n h; omega
  | succ f ih =>
    intro n hn
    rw [natCharsAux]
    by_cases h : n < 10
    · rw [if_pos h]
      simp [digitsToNat, digitVal_digitChar h]
    · rw [if_neg h]
      rw [digitsToNat_append, ih (n / 10) (by omega)]
      simp [digitVal_digitChar (Nat.mod_lt n (by omega))]
      omega

theorem digitsToNat_natChars (n : ℕ) : digitsToNat (natChars n) = n :=
  digitsToNat_natCharsAux (n + 1) n (by omega)

theorem parseDigits_natChars (n : ℕ) : parseDigits (natChars n) = some n := by
  rw [parseDigits, if_pos ⟨natChars_ne_nil n, List.all_eq_true.mpr (natChars_all_digits n)⟩,
    digitsToNat_natChars]

theorem intChars_no_ws (n : ℤ) : ∀ c ∈ intChars n, isWS c = false := by
  intro c hc
  rw [intChars] at hc
  have hdig : c = '-' ∨ ∃ d, d < 10 ∧ c = digitChar d := by
    split at hc
    · rcases List.mem_cons.mp hc with h | h
      · exact Or.inl h
      · exact Or.inr (mem_natChars h)
    · exact Or.inr (mem_natChars hc)
  rcases hdig with rfl | ⟨d, hd, rfl⟩
  · decide
  · interval_cases d <;> decide

theorem stripWS_intChars (n : ℤ) : stripWS (intChars n) = intChars n :=
  strip_eq_self_of_all (intChars_no_ws n)

theorem pyInt_intChars (n : ℤ) : pyInt (intChars n) = some n := by
  rw [pyInt, stripWS_intChars]
  by_cases hn : n < 0
  · rw [intChars, if_pos hn]
    dsimp only
    rw [if_pos rfl, parseDigits_natChars, Option.map_some']
    simp only [Option.some.injEq]
    omega
  · rw [intChars, if_neg hn]
    cases h : natChars n.toNat with
    | nil => exact absurd h (natChars_ne_nil n.toNat)
    | cons a as =>
      obtain ⟨d, hd, rfl⟩ : ∃ d, d < 10 ∧ a = digitChar d := by
        have := mem_natChars (n := n.toNat) (c := a) (by simp [h])
        exact this
      have h1 : digitChar d ≠ '-' := by interval_cases d <;> decide
      have h2 : digitChar d ≠ '+' := by interval_cases d <;> decide
      dsimp only
      rw [if_neg h1, if_neg h2, ← h, parseDigits_natChars]
      rw [Option.map_some']
      simp only [Option.some.injEq]
      omega

/-! ## The STDEV aggregate (claim C1) -/

theorem foldl_step_k (vals : List (Option ℚ)) :
    ∀ st : StdevFunc, (vals.foldl StdevFunc.step st).k = st.k + countSome vals := by
  induction vals with
  | nil => intro st; simp [countSome]
  | cons o vs ih =>
    intro st
    rw [List.foldl_cons, ih]
    cases o with
    | none => simp [StdevFunc.step, countSome, List.countP_cons]
    | some v => simp [StdevFunc.step, countSome, List.countP_cons]; omega

/--
Claim C1, counterexample: over exactly two non-null values the `STDEV`
aggregate does **not** return null — `finalize` rejects only `k < 3`, and `k`
is `1 +` the number of non-null contributions, so two values give `k = 3` and
a defined result (here `sqrt 0 = 0` for the two equal values `0, 0`).
-/
theorem C1_counterexample : stdevAgg [some (0 : ℚ), some 0] ≠ none := by
  simp [stdevAgg, StdevFunc.step, StdevFunc.init, StdevFunc.finalize]

/--
Claim C1, amended: the sample standard deviation aggregate requires at least
**2** (not 3) non-null contributions.  With fewer than 2 it returns null;
over exactly two values `a, b` it returns `sqrt ((b - a)² / 2)` (the sample
standard deviation of two points, never null); over three identical values it
returns 0.
-/
theorem C1_stdev_thresholds :
    (∀ vals : List (Option ℚ), countSome vals < 2 → stdevAgg vals = none) ∧
    (∀ a b : ℚ, stdevAgg [some a, some b] =
      some (Real.sqrt (((b - a) ^ 2 / 2 : ℚ) : ℝ))) ∧
    (∀ v : ℚ, stdevAgg [some v, some v, some v] = some 0) := by
  refine ⟨?_, ?_, ?_⟩
  · intro vals h
    rw [stdevAgg, StdevFunc.finalize, if_pos]
    rw [foldl_step_k]
    simp [StdevFunc.init]
    omega
  · intro a b
    simp only [stdevAgg, List.foldl, StdevFunc.step, StdevFunc.init, StdevFunc.finalize]
    rw [if_neg (by norm_num)]
    refine congrArg some (congrArg Real.sqrt ?_)
    push_cast
    ring
  · intro v
    simp only [stdevAgg, List.foldl, StdevFunc.step, StdevFunc.init, StdevFunc.finalize]
    rw [if_neg (by norm_num)]
    have h0 : ∀ x : ℝ, x = 0 → Real.sqrt x = 0 := fun x hx => hx ▸ Real.sqrt_zero
    rw [h0 _ (by push_cast; ring)]

/-- Witness for C1: a single non-null value is below the threshold and
produces null. -/
theorem C1_witness : countSome [some (3 : ℚ)] < 2 ∧ stdevAgg [some (3 : ℚ)] = none :=
  ⟨by decide, C1_stdev_thresholds.1 [some 3] (by decide)⟩

/-! ## The table loader (claim C9) -/

theorem convertValue_ne_empty_str {n s : Str} {v : Value}
    (h : Analyze.convertValue n s = some v) : v ≠ Value.vstr [] := by
  unfold Analyze.convertValue at h
  split at h
  · simp at h; simp [← h]
  · split at h
    · simp at h; simp [← h]
    · split at h
      · rcases Option.map_eq_some'.mp h with ⟨m, _, hm⟩
        simp [← hm]
      · split at h
        · simp at h
        · next hs _ _ _ =>
          simp at h
          intro hv
          rw [← h] at hv
          exact hs (by injection hv)

theorem convertRow_mem : ∀ {hd cells : List Str} {row : List Value},
    Analyze.convertRow hd cells = some row →
    ∀ v ∈ row, ∃ n s, Analyze.convertValue n s = some v := by
  intro hd
  induction hd with
  | nil =>
    intro cells row h v hv
    unfold Analyze.convertRow at h
    simp at h
    subst h
    simp at hv
  | cons n hs ih =>
    intro cells row h v hv
    cases cells with
    | nil =>
      unfold Analyze.convertRow at h
      simp at h
      subst h
      simp at hv
    | cons c cs =>
      unfold Analyze.convertRow at h
      cases hcv : Analyze.convertValue n c with
      | none => rw [hcv] at h; simp at h
      | some v0 =>
        rw [hcv] at h
        cases hcr : Analyze.convertRow hs cs with
        | none => rw [hcr] at h; simp at h
        | some vs =>
          rw [hcr] at h
          simp at h
          rw [← h] at hv
          rcases List.mem_cons.mp hv with rfl | hv2
          · exact ⟨n, c, hcv⟩
          · exact ih hcr v hv2

theorem fetchGo_no_empty_str :
    ∀ (lines : List Str) (header : Option (List Str)) (acc : List (List Value))
      (h' : Option (List Str)) (rows : List (List Value)),
    Analyze.fetchGo lines header acc = some (h', rows) →
    (∀ r ∈ acc, Value.vstr [] ∉ r) →
    ∀ r ∈ rows, Value.vstr [] ∉ r := by
  intro lines
  induction lines with
  | nil =>
    intro header acc h' rows h hacc
    unfold Analyze.fetchGo at h
    simp at h
    rw [← h.2]
    intro r hr
    exact hacc r (List.mem_reverse.mp hr)
  | cons l ls ih =>
    intro header acc h' rows h hacc
    unfold Analyze.fetchGo at h
    by_cases hl : stripNlSp l = []
    · rw [if_pos hl] at h
      exact ih _ _ _ _ h hacc
    · rw [if_neg hl] at h
      cases header with
      | none => exact ih _ _ _ _ h hacc
      | some hd =>
        dsimp only at h
        by_cases hlen : (splitTab (stripNlSp l)).length = hd.length
        · rw [if_pos hlen] at h
          cases hcr : Analyze.convertRow hd (splitTab (stripNlSp l)) with
          | none => rw [hcr] at h; simp at h
          | some row =>
            rw [hcr] at h
            refine ih _ _ _ _ h ?_
            intro r hr
            rcases List.mem_cons.mp hr with rfl | hr2
            · intro hv
              obtain ⟨n, s, hcv⟩ := convertRow_mem hcr _ hv
              exact convertValue_ne_empty_str hcv rfl
            · exact hacc r hr2
        · rw [if_neg hlen] at h
          simp at h

/--
Claim C9, confirmed: in the analyze step's tab-separated loader an empty
field is converted to `None` for **every** column name (including
text-classified and unclassified ones), and no loaded row ever stores an
empty text value — so "field absent" and empty text are indistinguishable
after loading, for all column types.
-/
theorem C9_loader_empty_is_null :
    (∀ name : Str, Analyze.convertValue name [] = some Value.vnull) ∧
    (∀ (lines : List Str) (header : Option (List Str)) (rows : List (List Value)),
      Analyze.fetchResults lines = some (header, rows) →
      ∀ r ∈ rows, Value.vstr [] ∉ r) := by
  constructor
  · intro name
    unfold Analyze.convertValue
    rw [if_pos rfl]
  · intro lines header rows h
    exact fetchGo_no_empty_str lines none [] header rows h (by simp)

/-- Witness for C9: a two-line input loads with no empty text cell. -/
theorem C9_witness :
    Analyze.fetchResults [['a'], ['b']] = some (some [['a']], [[Value.vstr ['b']]]) ∧
    Value.vstr [] ∉ [Value.vstr ['b']] :=
  ⟨by decide,
   C9_loader_empty_is_null.2 [['a'], ['b']] (some [['a']]) [[Value.vstr ['b']]]
     (by decide) [Value.vstr ['b']] (by decide)⟩

/-! ## Empty input (claim C8) and zero reference values (claim C7) -/

/--
Claim C8, confirmed: if the loader produced zero data rows, `main` returns
before creating any table, and every query mode prints nothing at all — not
even a header line.
-/
theorem C8_empty_input_no_output :
    ∀ (mode : Analyze.Mode) (lines : List Str) (header : Option (List Str)),
      Analyze.fetchResults lines = some (header, []) →
      Analyze.main mode lines = some [] := by
  intro mode lines header h
  unfold Analyze.main
  rw [h]
  simp

/-- Witness for C8: a header-only input produces no output in `BASE` mode. -/
theorem C8_witness :
    Analyze.fetchResults [['a']] = some (some [['a']], []) ∧
    Analyze.main Analyze.Mode.BASE [['a']] = some [] :=
  ⟨by decide, C8_empty_input_no_output Analyze.Mode.BASE [['a']] (some [['a']]) (by decide)⟩

theorem sqlDiv_zero (a : Option ℤ) : Analyze.sqlDiv a (some 0) = none := by
  cases a <;> simp [Analyze.sqlDiv]

/--
Claim C7, confirmed: in `RELATIVE` mode, whenever the reference-backend side
of a join pair has value `0` for `memory`, `runtime` or `grounding_time`, the
corresponding ratio cell of the emitted row is `NULL` (SQLite division by
zero yields `NULL`, not an error); the row is still emitted and the query
completes.
-/
theorem C7_relative_zero_denominator :
    ∀ (rows : List Analyze.StatsRow) (p : Analyze.StatsRow × Analyze.StatsRow),
      p ∈ Analyze.relPairs rows →
      Analyze.mkRelRow p.1 p.2 ∈ Analyze.relativeQuery rows ∧
      (p.2.memory = some 0 → (Analyze.mkRelRow p.1 p.2).relative_memory = none) ∧
      (p.2.runtime = some 0 → (Analyze.mkRelRow p.1 p.2).relative_runtime = none) ∧
      (p.2.grounding_time = some 0 →
        (Analyze.mkRelRow p.1 p.2).relative_grounding_time = none) := by
  intro rows p hp
  refine ⟨?_, ?_, ?_, ?_⟩
  · unfold Analyze.relativeQuery
    rw [(sortBy_perm _ _).mem_iff]
    exact List.mem_map.mpr ⟨p, hp, rfl⟩
  · intro h
    simp [Analyze.mkRelRow, h, sqlDiv_zero]
  · intro h
    simp [Analyze.mkRelRow, h, sqlDiv_zero]
  · intro h
    simp [Analyze.mkRelRow, h, sqlDiv_zero]

/-- Witness for C7: a two-row table whose Postgres reference row has
`memory = 0`, `runtime = 0` and `grounding_time = 0` yields `NULL` ratio
cells. -/
theorem C7_witness :
    (Analyze.wrow1, Analyze.wrow2) ∈ Analyze.relPairs [Analyze.wrow1, Analyze.wrow2] ∧
    (Analyze.mkRelRow Analyze.wrow1 Analyze.wrow2).relative_memory = none ∧
    (Analyze.mkRelRow Analyze.wrow1 Analyze.wrow2).relative_runtime = none ∧
    (Analyze.mkRelRow Analyze.wrow1 Analyze.wrow2).relative_grounding_time = none := by
  refine ⟨by decide, ?_, ?_, ?_⟩
  · exact (C7_relative_zero_denominator [Analyze.wrow1, Analyze.wrow2]
      (Analyze.wrow1, Analyze.wrow2) (by decide)).2.1 (by decide)
  · exact (C7_relative_zero_denominator [Analyze.wrow1, Analyze.wrow2]
      (Analyze.wrow1, Analyze.wrow2) (by decide)).2.2.1 (by decide)
  · exact (C7_relative_zero_denominator [Analyze.wrow1, Analyze.wrow2]
      (Analyze.wrow1, Analyze.wrow2) (by decide)).2.2.2 (by decide)

/-! ## The results dict and identity recovery (claims C10, C6) -/

theorem dlookup_dinsert_self (d : ParseResults.Dict) (k : Str) (v : ParseResults.RVal) :
    ParseResults.dlookup (ParseResults.dinsert d k v) k = some v := by
  simp [ParseResults.dlookup, ParseResults.dinsert, List.find?]

theorem dlookup_dinsert_ne (d : ParseResults.Dict) {k k' : Str} (v : ParseResults.RVal)
    (h : k' ≠ k) :
    ParseResults.dlookup (ParseResults.dinsert d k' v) k = ParseResults.dlookup d k := by
  simp [ParseResults.dlookup, ParseResults.dinsert, List.find?, h]

theorem dlookup_foldl_pairs (pairs : List (Str × Str)) :
    ∀ (d0 : ParseResults.Dict) (k : Str),
    ParseResults.dlookup
        (pairs.foldl (fun d p => ParseResults.dinsert d p.1 (ParseResults.RVal.rstr p.2)) d0) k =
      match (pairs.filter (fun p => decide (p.1 = k))).getLast? with
      | some pr => some (ParseResults.RVal.rstr pr.2)
      | none => ParseResults.dlookup d0 k := by
  induction pairs with
  | nil => intro d0 k; simp
  | cons p ps ih =>
    intro d0 k
    rw [List.foldl_cons, ih]
    by_cases hk : p.1 = k
    · rw [List.filter_cons_of_pos (by simp [hk])]
      cases hf : (ps.filter (fun q => decide (q.1 = k))).getLast? with
      | some pr =>
        cases hps : ps.filter (fun q => decide (q.1 = k)) with
        | nil =>
          rw [hps] at hf
          simp at hf
        | cons a as =>
          rw [hps] at hf
          rw [List.getLast?_cons_cons, hf]
      | none =>
        have hnil : ps.filter (fun q => decide (q.1 = k)) = [] :=
          List.getLast?_eq_none_iff.mp hf
        rw [hnil]
        have h1 : ([p] : List (Str × Str)).getLast? = some p := by simp
        rw [h1]
        dsimp only
        rw [← hk]
        exact dlookup_dinsert_self d0 p.1 (ParseResults.RVal.rstr p.2)
    · rw [List.filter_cons_of_neg (by simp [hk])]
      cases hf : (ps.filter (fun q => decide (q.1 = k))).getLast? with
      | some pr => rfl
      | none => exact dlookup_dinsert_ne d0 (ParseResults.RVal.rstr p.2) hk

/--
Claim C10, confirmed: when the path contains several `key::value` pairs with
the same key, the identity mapping keeps the value of the last such pair in
left-to-right path order (later assignments overwrite earlier ones).
-/
theorem C10_identity_last_pair_wins :
    ∀ (path k : Str) (pr : Str × Str),
      2 ≤ ((ParseResults.findPairs path).filter (fun p => decide (p.1 = k))).length →
      ((ParseResults.findPairs path).filter (fun p => decide (p.1 = k))).getLast? = some pr →
      ParseResults.dlookup (ParseResults.pathDict path) k =
        some (ParseResults.RVal.rstr pr.2) := by
  intro path k pr _ hlast
  unfold ParseResults.pathDict
  rw [dlookup_foldl_pairs, hlast]

/-- Witness for C10: the path `a::b/a::c` binds `a` twice; the mapping keeps
`c`. -/
theorem C10_witness :
    2 ≤ ((ParseResults.findPairs "a::b/a::c".toList).filter
          (fun p => decide (p.1 = ['a']))).length ∧
    ParseResults.dlookup (ParseResults.pathDict "a::b/a::c".toList) ['a'] =
      some (ParseResults.RVal.rstr ['c']) :=
  ⟨by decide,
   C10_identity_last_pair_wins "a::b/a::c".toList ['a'] (['a'], ['c'])
     (by decide) (by decide)⟩

/-! ## The parseLog scan loop (claims C2, C4, C6) -/

theorem parseLine_ok_cases {st : ParseResults.ScanSt} {rawLine : Str}
    {st2 : ParseResults.ScanSt}
    (h : ParseResults.parseLine st rawLine = Except.ok st2) :
    (stripWS rawLine = [] ∧ st2 = st) ∨
    (stripWS rawLine ≠ [] ∧ ∃ time' gst' d1,
      (time' = (match ParseResults.matchTimestamp (stripWS rawLine) with
                | some t => some t
                | none => st.time)) ∧
      (if ParseResults.containsPat ParseResults.startPat (stripWS rawLine)
       then ∃ t, time' = some t ∧ gst' = some t
       else gst' = st.gst) ∧
      (if ParseResults.containsPat ParseResults.completePat (stripWS rawLine)
       then ∃ t, time' = some t ∧
         d1 = (match gst' with
               | some g =>
                 ParseResults.dinsert
                   (ParseResults.dinsert st.results ParseResults.runtimeKey
                     (ParseResults.RVal.rint t))
                   ParseResults.gtimeKey (ParseResults.RVal.rint ((t : ℤ) - g))
               | none =>
                 ParseResults.dinsert st.results ParseResults.runtimeKey
                   (ParseResults.RVal.rint t))
       else d1 = st.results) ∧
      st2 = ⟨time', gst',
        (match ParseResults.matchMemory (stripWS rawLine) with
         | some mx => ParseResults.dinsert d1 ParseResults.memoryKey
             (ParseResults.RVal.rint mx)
         | none => d1)⟩) := by
  unfold ParseResults.parseLine at h
  by_cases hl : stripWS rawLine = []
  · rw [if_pos hl] at h
    simp at h
    exact Or.inl ⟨hl, h.symm⟩
  · rw [if_neg hl] at h
    refine Or.inr ⟨hl, ?_⟩
    dsimp only at h
    by_cases hs : ParseResults.containsPat ParseResults.startPat (stripWS rawLine)
    · rw [if_pos hs] at h
      cases ht : (match ParseResults.matchTimestamp (stripWS rawLine) with
                  | some t => some t
                  | none => st.time) with
      | none =>
        rw [ht] at h
        simp at h
      | some t =>
        rw [ht] at h
        dsimp only at h
        by_cases hc : ParseResults.containsPat ParseResults.completePat (stripWS rawLine)
        · rw [if_pos hc] at h
          dsimp only at h
          simp only [Except.ok.injEq] at h
          refine ⟨some t, some t, _, rfl, ?_, ?_, h.symm⟩
          · rw [if_pos hs]; exact ⟨t, rfl, rfl⟩
          · rw [if_pos hc]; exact ⟨t, rfl, rfl⟩
        · rw [if_neg hc] at h
          dsimp only at h
          simp only [Except.ok.injEq] at h
          refine ⟨some t, some t, st.results, rfl, ?_, ?_, h.symm⟩
          · rw [if_pos hs]; exact ⟨t, rfl, rfl⟩
          · rw [if_neg hc]
    · rw [if_neg hs] at h
      dsimp only at h
      by_cases hc : ParseResults.containsPat ParseResults.completePat (stripWS rawLine)
      · rw [if_pos hc] at h
        cases ht : (match ParseResults.matchTimestamp (stripWS rawLine) with
                    | some t => some t
                    | none => st.time) with
        | none =>
          rw [ht] at h
          simp at h
        | some t =>
          rw [ht] at h
          dsimp only at h
          cases hg : st.gst with
          | some g =>
            rw [hg] at h
            dsimp only at h
            simp only [Except.ok.injEq] at h
            refine ⟨some t, some g, _, rfl, ?_, ?_, h.symm⟩
            · rw [if_neg hs]
            · rw [if_pos hc]
              exact ⟨t, rfl, rfl⟩
          | none =>
            rw [hg] at h
            dsimp only at h
            simp only [Except.ok.injEq] at h
            refine ⟨some t, none, _, rfl, ?_, ?_, h.symm⟩
            · rw [if_neg hs]
            · rw [if_pos hc]
              exact ⟨t, rfl, rfl⟩
      · rw [if_neg hc] at h
        dsimp only at h
        simp only [Except.ok.injEq] at h
        refine ⟨_, st.gst, st.results, rfl, ?_, ?_, h.symm⟩
        · rw [if_neg hs]
        · rw [if_neg hc]

theorem containsPat_start_nil : ParseResults.containsPat ParseResults.startPat [] = false := by
  decide

theorem containsPat_complete_nil :
    ParseResults.containsPat ParseResults.completePat [] = false := by decide

theorem matchMemory_nil : ParseResults.matchMemory [] = none := by decide

theorem runtimeKey_ne_memoryKey : ParseResults.runtimeKey ≠ ParseResults.memoryKey := by decide

theorem gtimeKey_ne_memoryKey : ParseResults.gtimeKey ≠ ParseResults.memoryKey := by decide

theorem runtimeKey_ne_gtimeKey : ParseResults.runtimeKey ≠ ParseResults.gtimeKey := by decide

theorem memoryKey_ne_gtimeKey : ParseResults.memoryKey ≠ ParseResults.gtimeKey := by decide

theorem parseLine_memory {st : ParseResults.ScanSt} {rawLine : Str}
    {st2 : ParseResults.ScanSt}
    (h : ParseResults.parseLine st rawLine = Except.ok st2) :
    ParseResults.dlookup st2.results ParseResults.memoryKey =
      (match ParseResults.matchMemory (stripWS rawLine) with
       | some mx => some (ParseResults.RVal.rint mx)
       | none => ParseResults.dlookup st.results ParseResults.memoryKey) := by
  rcases parseLine_ok_cases h with ⟨hl, rfl⟩ | ⟨hl, time', gst', d1, ht, hgst, hd1, hst2⟩
  · rw [hl, matchMemory_nil]
  · have hd1mem : ParseResults.dlookup d1 ParseResults.memoryKey =
        ParseResults.dlookup st.results ParseResults.memoryKey := by
      by_cases hc : ParseResults.containsPat ParseResults.completePat (stripWS rawLine)
      · rw [if_pos hc] at hd1
        obtain ⟨t, _, hd⟩ := hd1
        cases gst' with
        | some g =>
          rw [hd]
          rw [dlookup_dinsert_ne _ _ gtimeKey_ne_memoryKey,
            dlookup_dinsert_ne _ _ runtimeKey_ne_memoryKey]
        | none =>
          rw [hd, dlookup_dinsert_ne _ _ runtimeKey_ne_memoryKey]
      · rw [if_neg hc] at hd1
        rw [hd1]
    rw [hst2]
    cases hm : ParseResults.matchMemory (stripWS rawLine) with
    | some mx =>
      dsimp only
      exact dlookup_dinsert_self d1 ParseResults.memoryKey (ParseResults.RVal.rint mx)
    | none => exact hd1mem

theorem parseLine_gst {st : ParseResults.ScanSt} {rawLine : Str}
    {st2 : ParseResults.ScanSt}
    (h : ParseResults.parseLine st rawLine = Except.ok st2) :
    st2.gst.isSome = (st.gst.isSome || ParseResults.hasStart rawLine) := by
  rcases parseLine_ok_cases h with ⟨hl, rfl⟩ | ⟨hl, time', gst', d1, ht, hgst, hd1, hst2⟩
  · rw [ParseResults.hasStart, hl, containsPat_start_nil, Bool.or_false]
  · rw [hst2, ParseResults.hasStart]
    by_cases hs : ParseResults.containsPat ParseResults.startPat (stripWS rawLine)
    · rw [if_pos hs] at hgst
      obtain ⟨t, _, hg⟩ := hgst
      rw [hs, hg]
      simp
    · rw [if_neg hs] at hgst
      rw [hgst]
      simp [hs]

theorem parseLine_gt {st : ParseResults.ScanSt} {rawLine : Str}
    {st2 : ParseResults.ScanSt}
    (h : ParseResults.parseLine st rawLine = Except.ok st2) :
    (ParseResults.dlookup st2.results ParseResults.gtimeKey).isSome =
      ((ParseResults.dlookup st.results ParseResults.gtimeKey).isSome ||
        ((st.gst.isSome || ParseResults.hasStart rawLine) &&
          ParseResults.hasComplete rawLine)) := by
  rcases parseLine_ok_cases h with ⟨hl, rfl⟩ | ⟨hl, time', gst', d1, ht, hgst, hd1, hst2⟩
  · rw [ParseResults.hasStart, ParseResults.hasComplete, hl, containsPat_start_nil,
      containsPat_complete_nil]
    simp
  · have hgst' : gst'.isSome = (st.gst.isSome || ParseResults.hasStart rawLine) := by
      rw [ParseResults.hasStart]
      by_cases hs : ParseResults.containsPat ParseResults.startPat (stripWS rawLine)
      · rw [if_pos hs] at hgst
        obtain ⟨t, _, hg⟩ := hgst
        rw [hs, hg]
        simp
      · rw [if_neg hs] at hgst
        rw [hgst]
        simp [hs]
    have hmain : (ParseResults.dlookup st2.results ParseResults.gtimeKey).isSome =
        (ParseResults.dlookup d1 ParseResults.gtimeKey).isSome := by
      rw [hst2]
      cases hm : ParseResults.matchMemory (stripWS rawLine) with
      | some mx =>
        dsimp only
        rw [dlookup_dinsert_ne _ _ memoryKey_ne_gtimeKey]
      | none => rfl
    rw [hmain, ParseResults.hasComplete]
    by_cases hc : ParseResults.containsPat ParseResults.completePat (stripWS rawLine)
    · rw [if_pos hc] at hd1
      obtain ⟨t, _, hd⟩ := hd1
      cases hg : gst' with
      | some g =>
        rw [hg] at hd hgst'
        rw [hd, dlookup_dinsert_self]
        simp at hgst'
        simp [hc, hgst']
      | none =>
        rw [hg] at hd hgst'
        rw [hd, dlookup_dinsert_ne _ _ runtimeKey_ne_gtimeKey]
        simp at hgst'
        simp [hc, hgst'.1, hgst'.2]
    · rw [if_neg hc] at hd1
      rw [hd1]
      simp [hc]

theorem scanLines_memory :
    ∀ (lines : List Str) (st st' : ParseResults.ScanSt),
      ParseResults.scanLines st lines = Except.ok st' →
      ParseResults.dlookup st'.results ParseResults.memoryKey =
        ((ParseResults.memVals lines).getLast?).elim
          (ParseResults.dlookup st.results ParseResults.memoryKey)
          (fun mx => some (ParseResults.RVal.rint mx)) := by
  intro lines
  induction lines with
  | nil =>
    intro st st' h
    unfold ParseResults.scanLines at h
    simp at h
    rw [← h]
    rfl
  | cons l ls ih =>
    intro st st' h
    unfold ParseResults.scanLines at h
    cases hpl : ParseResults.parseLine st l with
    | error e => rw [hpl] at h; simp at h
    | ok st2 =>
      rw [hpl] at h
      dsimp only at h
      have hmem2 := parseLine_memory hpl
      rw [ih st2 st' h]
      cases hm : ParseResults.matchMemory (stripWS l) with
      | some v =>
        rw [hm] at hmem2
        dsimp only at hmem2
        have h1 : ParseResults.memVals (l :: ls) = v :: ParseResults.memVals ls := by
          unfold ParseResults.memVals
          exact List.filterMap_cons_some hm
        rw [h1, hmem2]
        cases hcase : ParseResults.memVals ls with
        | nil => rfl
        | cons a as =>
          rw [List.getLast?_cons_cons]
          cases hg : (a :: as).getLast? with
          | none => exact absurd (List.getLast?_eq_none_iff.mp hg) (by simp)
          | some x => rfl
      | none =>
        rw [hm] at hmem2
        dsimp only at hmem2
        have h1 : ParseResults.memVals (l :: ls) = ParseResults.memVals ls := by
          unfold ParseResults.memVals
          exact List.filterMap_cons_none hm
        rw [h1, hmem2]

theorem scanLines_gt :
    ∀ (lines : List Str) (st st' : ParseResults.ScanSt),
      ParseResults.scanLines st lines = Except.ok st' →
      (ParseResults.dlookup st'.results ParseResults.gtimeKey).isSome =
        ((ParseResults.dlookup st.results ParseResults.gtimeKey).isSome ||
          ParseResults.pairSeen st.gst.isSome lines) := by
  intro lines
  induction lines with
  | nil =>
    intro st st' h
    unfold ParseResults.scanLines at h
    simp at h
    rw [← h, ParseResults.pairSeen, Bool.or_false]
  | cons l ls ih =>
    intro st st' h
    unfold ParseResults.scanLines at h
    cases hpl : ParseResults.parseLine st l with
    | error e => rw [hpl] at h; simp at h
    | ok st2 =>
      rw [hpl] at h
      dsimp only at h
      rw [ih st2 st' h, parseLine_gt hpl, parseLine_gst hpl]
      simp only [ParseResults.pairSeen]
      rw [Bool.or_assoc]

/--
The code bug behind claim C2: a log whose very first line carries a grounding
marker but no leading timestamp makes `parseLog` read the Python local `time`
before any assignment, raising `UnboundLocalError` — the extractor is *not*
total.
-/
theorem C2_crash_on_marker_before_timestamp :
    ParseResults.parseLog ['x']
      ["INFO  org.linqs.psl.application.inference.InferenceApplication  - Grounding out model.".toList]
      = Except.error () := by rfl

theorem parseLog_ok_some {path : Str} {lines : List Str} {res : ParseResults.Dict}
    (h : ParseResults.parseLog path lines = Except.ok (some res)) :
    ∃ st : ParseResults.ScanSt,
      ParseResults.scanLines ⟨none, none, ParseResults.pathDict path⟩ lines =
        Except.ok st ∧ res = st.results := by
  unfold ParseResults.parseLog at h
  cases hs : ParseResults.scanLines ⟨none, none, ParseResults.pathDict path⟩ lines with
  | error e => rw [hs] at h; simp at h
  | ok st =>
    rw [hs] at h
    dsimp only at h
    by_cases hm : (ParseResults.dlookup st.results ParseResults.memoryKey).isSome
    · rw [if_pos hm] at h
      simp at h
      exact ⟨st, rfl, h.symm⟩
    · rw [if_neg hm] at h
      simp at h

/--
Claim C6, confirmed: when the memory summary line appears more than once in a
log (and the extractor returns a record), the record's `memory` value is the
`Max` capture of the **last** such line — later matches overwrite earlier
ones, nothing accumulates.
-/
theorem C6_memory_last_line_wins :
    ∀ (path : Str) (lines : List Str) (res : ParseResults.Dict) (mx : ℕ),
      ParseResults.parseLog path lines = Except.ok (some res) →
      2 ≤ (ParseResults.memVals lines).length →
      (ParseResults.memVals lines).getLast? = some mx →
      ParseResults.dlookup res ParseResults.memoryKey =
        some (ParseResults.RVal.rint mx) := by
  intro path lines res mx h _ hlast
  obtain ⟨st, hscan, rfl⟩ := parseLog_ok_some h
  rw [scanLines_memory lines _ st hscan, hlast]
  rfl

/-- Witness for C6: a log with two memory summary lines (`Max: 2`, then
`Max: 7`) yields a record whose memory value is 7. -/
theorem C6_witness :
    ParseResults.parseLog ['p']
      ["INFO  org.linqs.psl.util.RuntimeStats  - Used Memory (bytes)  -- Min: 1, Max: 2, Mean: 1, Count: 1".toList,
       "INFO  org.linqs.psl.util.RuntimeStats  - Used Memory (bytes)  -- Min: 1, Max: 7, Mean: 1, Count: 1".toList] =
      Except.ok (some [(ParseResults.memoryKey, ParseResults.RVal.rint 7),
        (ParseResults.memoryKey, ParseResults.RVal.rint 2)]) ∧
    ParseResults.dlookup
      [(ParseResults.memoryKey, ParseResults.RVal.rint 7),
        (ParseResults.memoryKey, ParseResults.RVal.rint 2)]
      ParseResults.memoryKey = some (ParseResults.RVal.rint 7) :=
  ⟨by rfl,
   C6_memory_last_line_wins ['p']
     ["INFO  org.linqs.psl.util.RuntimeStats  - Used Memory (bytes)  -- Min: 1, Max: 2, Mean: 1, Count: 1".toList,
      "INFO  org.linqs.psl.util.RuntimeStats  - Used Memory (bytes)  -- Min: 1, Max: 7, Mean: 1, Count: 1".toList]
     [(ParseResults.memoryKey, ParseResults.RVal.rint 7),
      (ParseResults.memoryKey, ParseResults.RVal.rint 2)] 7
     (by rfl) (by decide) (by decide)⟩

/--
Claim C4, counterexample: the scan is not the only source of the
`grounding_time` field — a path carrying a `grounding_time::5` identity pair
produces a record with `grounding_time` present although the log contains no
grounding marker at all, so "present iff both markers seen with start first"
fails as stated.
-/
theorem C4_counterexample :
    ParseResults.gtPresent (ParseResults.parseLog "grounding_time::5".toList
      ["INFO  org.linqs.psl.util.RuntimeStats  - Used Memory (bytes)  -- Min: 1, Max: 2, Mean: 1, Count: 1".toList])
      = true ∧
    ParseResults.groundingPair
      ["INFO  org.linqs.psl.util.RuntimeStats  - Used Memory (bytes)  -- Min: 1, Max: 2, Mean: 1, Count: 1".toList]
      = false := by
  constructor
  · rfl
  · rfl

/--
Claim C4, amended: provided the path's `key::value` pairs do not seed a
`grounding_time` entry, and the extractor returns a record, the record
carries `grounding_time` if and only if some grounding-complete marker line
is preceded (possibly on the same line) by a grounding-start marker line in
scan order; in particular a grounding-complete marker with no earlier start
marker leaves the field unset rather than defaulting it to zero.
-/
theorem C4_grounding_time_iff_markers :
    ∀ (path : Str) (lines : List Str) (res : ParseResults.Dict),
      ParseResults.dlookup (ParseResults.pathDict path) ParseResults.gtimeKey = none →
      ParseResults.parseLog path lines = Except.ok (some res) →
      (ParseResults.dlookup res ParseResults.gtimeKey).isSome =
        ParseResults.groundingPair lines := by
  intro path lines res hbenign h
  obtain ⟨st, hscan, rfl⟩ := parseLog_ok_some h
  rw [scanLines_gt lines _ st hscan]
  dsimp only
  rw [hbenign]
  rw [ParseResults.groundingPair]
  rfl

/-- Witness for C4: a marker-free log under a benign path yields a record
without `grounding_time`. -/
theorem C4_witness :
    (ParseResults.dlookup
      [(ParseResults.memoryKey, ParseResults.RVal.rint 2)]
      ParseResults.gtimeKey).isSome =
      ParseResults.groundingPair
        ["INFO  org.linqs.psl.util.RuntimeStats  - Used Memory (bytes)  -- Min: 1, Max: 2, Mean: 1, Count: 1".toList] :=
  C4_grounding_time_iff_markers ['p']
    ["INFO  org.linqs.psl.util.RuntimeStats  - Used Memory (bytes)  -- Min: 1, Max: 2, Mean: 1, Count: 1".toList]
    [(ParseResults.memoryKey, ParseResults.RVal.rint 2)]
    (by decide) (by rfl)

/-! ## AGGREGATE row count (claim C3) -/

theorem rank_filterMap_unique :
    ∀ (l : List (Str × Str)) (e : Str) (s : Analyze.StatsRow),
      (l.map Prod.fst).Nodup →
      ((l.filterMap (fun p => if e = p.1 then some (p.2, s) else none)).map Prod.snd)
        = (if l.any (fun p => decide (p.1 = e)) then [s] else []) := by
  intro l
  induction l with
  | nil => intro e s _; simp
  | cons p ps ih =>
    intro e s hnd
    rw [List.map_cons, List.nodup_cons] at hnd
    by_cases he : e = p.1
    · rw [List.filterMap_cons_some (by rw [if_pos he])]
      have hnil : ps.filterMap (fun q => if e = q.1 then some (q.2, s) else none) = [] := by
        refine List.filterMap_eq_nil_iff.mpr (fun q hq => ?_)
        rw [if_neg]
        intro heq
        exact hnd.1 (by rw [← he, heq]; exact List.mem_map_of_mem Prod.fst hq)
      rw [hnil, List.any_cons, if_pos (by simp [he])]
      simp
    · rw [List.filterMap_cons_none (by rw [if_neg he])]
      rw [ih e s hnd.2, List.any_cons]
      have : (decide (p.1 = e)) = false := by
        simp
        exact fun h => he h.symm
      rw [this, Bool.false_or]

theorem rankMatch_snd (s : Analyze.StatsRow) :
    (Analyze.rankMatch s).map Prod.snd = (if Analyze.isMapped s then [s] else []) := by
  unfold Analyze.rankMatch Analyze.isMapped
  cases hx : s.«example» with
  | none => simp
  | some e =>
    have := rank_filterMap_unique Analyze.RANK_IDS e s (by decide)
    convert this using 2
  
theorem flatMap_rankMatch_snd :
    ∀ (L : List Analyze.StatsRow),
      ((L.flatMap Analyze.rankMatch).map Prod.snd) = L.filter Analyze.isMapped := by
  intro L
  induction L with
  | nil => simp
  | cons s ss ih =>
    rw [List.flatMap_cons, List.map_append, ih, rankMatch_snd, List.filter_cons]
    by_cases hm : Analyze.isMapped s
    · rw [if_pos hm, if_pos hm]
      rfl
    · rw [if_neg hm, if_neg hm]
      rfl

theorem aggregateQuery_length (rows : List Analyze.StatsRow) :
    (Analyze.aggregateQuery rows).length =
      (((Analyze.baseQuery rows).filter Analyze.isMapped).map Analyze.groupKey).dedup.length := by
  unfold Analyze.aggregateQuery
  rw [(sortBy_perm _ _).length_eq, List.length_map]
  congr 1
  rw [show (fun p : Str × Analyze.StatsRow => Analyze.groupKey p.2)
      = Analyze.groupKey ∘ Prod.snd from rfl]
  rw [← List.map_map, flatMap_rankMatch_snd]

/--
Claim C3, counterexample: a BASE-surviving row whose example has no
`EXAMPLE_RANK_IDS` entry is silently dropped by the inner join, so the
`AGGREGATE` output has fewer rows than the number of distinct
`{backend, example, experiment}` tuples among the BASE-filtered records.
-/
theorem C3_counterexample :
    (Analyze.aggregateQuery [Analyze.wrow3]).length ≠
      ((Analyze.baseQuery [Analyze.wrow3]).map Analyze.groupKey).dedup.length := by
  rw [aggregateQuery_length]
  decide

/--
Claim C3, amended: for every loaded table, the number of rows produced by
`AGGREGATE` mode equals the number of distinct `{backend, example,
experiment}` tuples among the records that survive the BASE filter (runtime
not null) **and whose example appears in `EXAMPLE_RANK_IDS`** (the rank-id
inner join drops the rest).
-/
theorem C3_aggregate_row_count :
    ∀ rows : List Analyze.StatsRow,
      (Analyze.aggregateQuery rows).length =
        (((Analyze.baseQuery rows).filter Analyze.isMapped).map
          Analyze.groupKey).dedup.length :=
  aggregateQuery_length

/-! ## BASE round trip (claim C5) -/

theorem intChars_ne_nil (n : ℤ) : intChars n ≠ [] := by
  rw [intChars]
  split
  · simp
  · exact natChars_ne_nil _

theorem intChars_no_tab (n : ℤ) : '\t' ∉ intChars n := by
  intro h
  have := intChars_no_ws n '\t' h
  simp [isWS] at this

theorem cells_of_noNulls (sr : Analyze.StatsRow) (h : Analyze.noNulls sr = true) :
    ∃ (s0 s1 s2 s3 : Str) (i g m r gt : ℤ),
      sr.experiment = some s0 ∧ sr.«example» = some s1 ∧ sr.backend = some s2 ∧
      sr.split = some s3 ∧ sr.iteration = some i ∧ sr.groundrules = some g ∧
      sr.memory = some m ∧ sr.runtime = some r ∧ sr.grounding_time = some gt ∧
      sr.cells = [Value.vstr s0, Value.vstr s1, Value.vstr s2, Value.vstr s3,
        Value.vint i, Value.vint g, Value.vint m, Value.vint r, Value.vint gt] := by
  rw [Analyze.noNulls] at h
  simp only [Bool.and_eq_true] at h
  obtain ⟨⟨⟨⟨⟨⟨⟨⟨h0, h1⟩, h2⟩, h3⟩, h4⟩, h5⟩, h6⟩, h7⟩, h8⟩ := h
  obtain ⟨s0, hs0⟩ := Option.isSome_iff_exists.mp h0
  obtain ⟨s1, hs1⟩ := Option.isSome_iff_exists.mp h1
  obtain ⟨s2, hs2⟩ := Option.isSome_iff_exists.mp h2
  obtain ⟨s3, hs3⟩ := Option.isSome_iff_exists.mp h3
  obtain ⟨i, hi⟩ := Option.isSome_iff_exists.mp h4
  obtain ⟨g, hg⟩ := Option.isSome_iff_exists.mp h5
  obtain ⟨m, hm⟩ := Option.isSome_iff_exists.mp h6
  obtain ⟨r, hr⟩ := Option.isSome_iff_exists.mp h7
  obtain ⟨gt, hgt⟩ := Option.isSome_iff_exists.mp h8
  refine ⟨s0, s1, s2, s3, i, g, m, r, gt, hs0, hs1, hs2, hs3, hi, hg, hm, hr, hgt, ?_⟩
  rw [Analyze.StatsRow.cells, hs0, hs1, hs2, hs3, hi, hg, hm, hr, hgt]
  rfl

theorem joinTab_head? (t : Str) (ts : List Str) (h : t ≠ []) :
    (joinTab (t :: ts)).head? = t.head? := by
  cases t with
  | nil => exact absurd rfl h
  | cons c cs =>
    cases ts with
    | nil => rfl
    | cons u us => rfl

theorem joinTab_getLast? :
    ∀ (cells : List Str) (lc : Str), cells.getLast? = some lc → lc ≠ [] →
      (joinTab cells).getLast? = lc.getLast? := by
  intro cells
  induction cells with
  | nil => intro lc h _; simp at h
  | cons t ts ih =>
    intro lc h hlc
    cases ts with
    | nil =>
      simp at h
      rw [joinTab, h]
    | cons u us =>
      rw [List.getLast?_cons_cons] at h
      have hrec := ih lc h hlc
      have hjoin_ne : joinTab (u :: us) ≠ [] := by
        intro hnil
        rw [hnil] at hrec
        have : lc.getLast? = none := hrec.symm
        exact hlc (List.getLast?_eq_none_iff.mp this)
      show (t ++ '\t' :: joinTab (u :: us)).getLast? = lc.getLast?
      rw [List.getLast?_append_of_ne_nil _ (by simp)]
      rw [show ('\t' :: joinTab (u :: us)) = ['\t'] ++ joinTab (u :: us) from rfl]
      rw [List.getLast?_append_of_ne_nil _ hjoin_ne]
      exact hrec

theorem isNlSp_false_of_isWS_false {c : Char} (h : isWS c = false) : isNlSp c = false := by
  rw [isWS] at h
  simp only [Bool.or_eq_false_iff] at h
  rw [isNlSp]
  simp only [Bool.or_eq_false_iff]
  exact ⟨h.1.1.1.2, h.1.1.1.1.1⟩

theorem conv_text (name : Str) (hname : name ∉ Analyze.INT_COLUMNS) (s : Str)
    (hs : s ≠ []) : Analyze.convertValue name s = some (Value.vstr s) := by
  unfold Analyze.convertValue
  rw [if_neg hs, if_neg (by simp [Analyze.BOOL_COLUMNS]), if_neg hname,
    if_neg (by simp [Analyze.FLOAT_COLUMNS])]

theorem conv_int (name : Str) (hname : name ∈ Analyze.INT_COLUMNS) (n : ℤ) :
    Analyze.convertValue name (intChars n) = some (Value.vint n) := by
  unfold Analyze.convertValue
  rw [if_neg (intChars_ne_nil n), if_neg (by simp [Analyze.BOOL_COLUMNS]),
    if_pos hname, pyInt_intChars]
  rfl

theorem row_roundtrip (sr : Analyze.StatsRow) (hw : Analyze.RowWF sr)
    (hn : Analyze.noNulls sr = true) :
    stripNlSp (Analyze.renderRow sr.cells) = Analyze.renderRow sr.cells ∧
    splitTab (Analyze.renderRow sr.cells) = sr.cells.map Analyze.renderValue ∧
    (sr.cells.map Analyze.renderValue).length = Analyze.STD_HEADER.length ∧
    Analyze.convertRow Analyze.STD_HEADER (sr.cells.map Analyze.renderValue) =
      some sr.cells ∧
    Analyze.toStatsRow sr.cells = some sr := by
  obtain ⟨s0, s1, s2, s3, i, g, m, r, gt, h0, h1, h2, h3, h4, h5, h6, h7, h8, hcells⟩ :=
    cells_of_noNulls sr hn
  obtain ⟨hw0, hw1, hw2, hw3⟩ := hw
  obtain ⟨hs0ne, hs0tab, hs0head⟩ := hw0 s0 h0
  obtain ⟨hs1ne, hs1tab⟩ := hw1 s1 h1
  obtain ⟨hs2ne, hs2tab⟩ := hw2 s2 h2
  obtain ⟨hs3ne, hs3tab⟩ := hw3 s3 h3
  have hmap : sr.cells.map Analyze.renderValue =
      [s0, s1, s2, s3, intChars i, intChars g, intChars m, intChars r, intChars gt] := by
    rw [hcells]
    rfl
  have hnotab : ∀ t ∈ sr.cells.map Analyze.renderValue, '\t' ∉ t := by
    rw [hmap]
    intro t ht
    simp only [List.mem_cons, List.not_mem_nil, or_false] at ht
    rcases ht with rfl | rfl | rfl | rfl | rfl | rfl | rfl | rfl | rfl
    · exact hs0tab
    · exact hs1tab
    · exact hs2tab
    · exact hs3tab
    all_goals exact intChars_no_tab _
  have hsplit : splitTab (Analyze.renderRow sr.cells) = sr.cells.map Analyze.renderValue := by
    rw [Analyze.renderRow]
    exact splitTab_joinTab _ (by rw [hmap]; simp) hnotab
  have hstrip : stripNlSp (Analyze.renderRow sr.cells) = Analyze.renderRow sr.cells := by
    rw [Analyze.renderRow, stripNlSp]
    refine strip_eq_self_of_ends (fun c hc => ?_) (fun c hc => ?_)
    · rw [hmap, joinTab_head? s0 _ hs0ne] at hc
      exact hs0head c hc
    · rw [hmap, joinTab_getLast? _ (intChars gt) (by rfl) (intChars_ne_nil gt)] at hc
      exact isNlSp_false_of_isWS_false
        (intChars_no_ws gt c (mem_of_getLast?_eq hc))
  have hconv : Analyze.convertRow Analyze.STD_HEADER (sr.cells.map Analyze.renderValue) =
      some sr.cells := by
    rw [hmap, hcells, Analyze.STD_HEADER]
    have e0 := conv_text "experiment".toList (by decide) s0 hs0ne
    have e1 := conv_text "example".toList (by decide) s1 hs1ne
    have e2 := conv_text "backend".toList (by decide) s2 hs2ne
    have e3 := conv_text "split".toList (by decide) s3 hs3ne
    have e4 := conv_int "iteration".toList (by decide) i
    have e5 := conv_int "groundrules".toList (by decide) g
    have e6 := conv_int "memory".toList (by decide) m
    have e7 := conv_int "runtime".toList (by decide) r
    have e8 := conv_int "grounding_time".toList (by decide) gt
    simp only [Analyze.convertRow, e0, e1, e2, e3, e4, e5, e6, e7, e8]
  have hto : Analyze.toStatsRow sr.cells = some sr := by
    rw [hcells]
    have hsr : sr = ⟨some s0, some s1, some s2, some s3, some i, some g, some m,
        some r, some gt⟩ := by
      cases sr
      simp_all
    rw [hsr]
    rfl
  exact ⟨hstrip, hsplit, by rw [hmap]; rfl, hconv, hto⟩

theorem fetchGo_header :
    ∀ (lines : List Str) (h : List Str) (acc : List (List Value))
      (hd' : Option (List Str)) (data : List (List Value)),
      Analyze.fetchGo lines (some h) acc = some (hd', data) → hd' = some h := by
  intro lines
  induction lines with
  | nil =>
    intro h acc hd' data hfg
    unfold Analyze.fetchGo at hfg
    simp at hfg
    exact hfg.1.symm
  | cons l ls ih =>
    intro h acc hd' data hfg
    unfold Analyze.fetchGo at hfg
    by_cases hl : stripNlSp l = []
    · rw [if_pos hl] at hfg
      exact ih h acc hd' data hfg
    · rw [if_neg hl] at hfg
      dsimp only at hfg
      by_cases hlen : (splitTab (stripNlSp l)).length = h.length
      · rw [if_pos hlen] at hfg
        cases hcr : Analyze.convertRow h (splitTab (stripNlSp l)) with
        | none => rw [hcr] at hfg; simp at hfg
        | some row =>
          rw [hcr] at hfg
          exact ih h _ hd' data hfg
      · rw [if_neg hlen] at hfg
        simp at hfg

theorem fetchGo_prov :
    ∀ (lines : List Str) (h : List Str) (acc : List (List Value))
      (data : List (List Value)),
      Analyze.fetchGo lines (some h) acc = some (some h, data) →
      ∀ row ∈ data, row ∈ acc ∨ ∃ raw : Str, stripNlSp raw ≠ [] ∧
        (splitTab (stripNlSp raw)).length = h.length ∧
        Analyze.convertRow h (splitTab (stripNlSp raw)) = some row := by
  intro lines
  induction lines with
  | nil =>
    intro h acc data hfg row hrow
    unfold Analyze.fetchGo at hfg
    simp at hfg
    rw [← hfg] at hrow
    exact Or.inl (List.mem_reverse.mp hrow)
  | cons l ls ih =>
    intro h acc data hfg row hrow
    unfold Analyze.fetchGo at hfg
    by_cases hl : stripNlSp l = []
    · rw [if_pos hl] at hfg
      exact ih h acc data hfg row hrow
    · rw [if_neg hl] at hfg
      dsimp only at hfg
      by_cases hlen : (splitTab (stripNlSp l)).length = h.length
      · rw [if_pos hlen] at hfg
        cases hcr : Analyze.convertRow h (splitTab (stripNlSp l)) with
        | none => rw [hcr] at hfg; simp at hfg
        | some row' =>
          rw [hcr] at hfg
          rcases ih h _ data hfg row hrow with hmem | hex
          · rcases List.mem_cons.mp hmem with rfl | hacc
            · exact Or.inr ⟨l, hl, hlen, hcr⟩
            · exact Or.inl hacc
          · exact Or.inr hex
      · rw [if_neg hlen] at hfg
        simp at hfg

theorem fetchResults_prov :
    ∀ (lines : List Str) (hd : List Str) (data : List (List Value)),
      Analyze.fetchResults lines = some (some hd, data) →
      ∀ row ∈ data, ∃ raw : Str, stripNlSp raw ≠ [] ∧
        (splitTab (stripNlSp raw)).length = hd.length ∧
        Analyze.convertRow hd (splitTab (stripNlSp raw)) = some row := by
  intro lines
  induction lines with
  | nil =>
    intro hd data hfg row hrow
    unfold Analyze.fetchResults Analyze.fetchGo at hfg
    simp at hfg
  | cons l ls ih =>
    intro hd data hfg row hrow
    unfold Analyze.fetchResults Analyze.fetchGo at hfg
    by_cases hl : stripNlSp l = []
    · rw [if_pos hl] at hfg
      exact ih hd data (by rw [Analyze.fetchResults]; exact hfg) row hrow
    · rw [if_neg hl] at hfg
      dsimp only at hfg
      have hhd : some hd = some (splitTab (stripNlSp l)) :=
        (fetchGo_header ls (splitTab (stripNlSp l)) [] (some hd) data hfg).symm.symm
      have hhd' : hd = splitTab (stripNlSp l) := by injection hhd
      subst hhd'
      rcases fetchGo_prov ls _ [] data hfg row hrow with hmem | hex
      · simp at hmem
      · exact hex

theorem convertRow_cons_inv {n : Str} {hs : List Str} {c : Str} {cs : List Str}
    {row : List Value}
    (h : Analyze.convertRow (n :: hs) (c :: cs) = some row) :
    ∃ v vs, Analyze.convertValue n c = some v ∧ Analyze.convertRow hs cs = some vs ∧
      row = v :: vs := by
  unfold Analyze.convertRow at h
  cases h1 : Analyze.convertValue n c with
  | none => rw [h1] at h; simp at h
  | some v =>
    rw [h1] at h
    cases h2 : Analyze.convertRow hs cs with
    | none => rw [h2] at h; simp at h
    | some vs =>
      rw [h2] at h
      simp at h
      exact ⟨v, vs, rfl, rfl, h.symm⟩

theorem convertValue_vstr_inv {n c : Str} {s : Str}
    (h : Analyze.convertValue n c = some (Value.vstr s)) : s = c ∧ c ≠ [] := by
  unfold Analyze.convertValue at h
  split at h
  · simp at h
  · split at h
    · simp at h
    · split at h
      · rcases Option.map_eq_some'.mp h with ⟨m, _, hm⟩
        simp at hm
      · split at h
        · simp at h
        · next hne _ _ _ =>
          simp at h
          exact ⟨h.symm, hne⟩

theorem asText_vstr_inv {v : Value} {s : Str}
    (h : Analyze.asText v = some (some s)) : v = Value.vstr s := by
  cases v with
  | vnull => simp [Analyze.asText] at h
  | vint n => simp [Analyze.asText] at h
  | vstr t => simp [Analyze.asText] at h; rw [h]

theorem list_len9 {α : Type} (l : List α) (h : l.length = 9) :
    ∃ a0 a1 a2 a3 a4 a5 a6 a7 a8, l = [a0, a1, a2, a3, a4, a5, a6, a7, a8] := by
  rcases l with _|⟨a0,_|⟨a1,_|⟨a2,_|⟨a3,_|⟨a4,_|⟨a5,_|⟨a6,_|⟨a7,_|⟨a8,_|⟨a9,t⟩⟩⟩⟩⟩⟩⟩⟩⟩⟩
  · simp at h
  · simp at h
  · simp at h
  · simp at h
  · simp at h
  · simp at h
  · simp at h
  · simp at h
  · simp at h
  · exact ⟨a0, a1, a2, a3, a4, a5, a6, a7, a8, rfl⟩
  · simp at h

theorem loaded_row_wf (raw : Str) (row : List Value) (sr : Analyze.StatsRow)
    (hne : stripNlSp raw ≠ [])
    (hlen : (splitTab (stripNlSp raw)).length = Analyze.STD_HEADER.length)
    (hconv : Analyze.convertRow Analyze.STD_HEADER (splitTab (stripNlSp raw)) = some row)
    (hto : Analyze.toStatsRow row = some sr) :
    Analyze.RowWF sr := by
  have hlen9 : (splitTab (stripNlSp raw)).length = 9 := by
    simpa [Analyze.STD_HEADER] using hlen
  obtain ⟨c0, c1, c2, c3, c4, c5, c6, c7, c8, hc⟩ := list_len9 _ hlen9
  rw [hc] at hconv
  rw [show Analyze.STD_HEADER = "experiment".toList :: "example".toList ::
    "backend".toList :: "split".toList :: "iteration".toList ::
    "groundrules".toList :: "memory".toList :: "runtime".toList ::
    ["grounding_time".toList] from rfl] at hconv
  obtain ⟨v0, vs0, he0, hcv0, hrow0⟩ := convertRow_cons_inv hconv
  subst hrow0
  obtain ⟨v1, vs1, he1, hcv1, hrow1⟩ := convertRow_cons_inv hcv0
  subst hrow1
  obtain ⟨v2, vs2, he2, hcv2, hrow2⟩ := convertRow_cons_inv hcv1
  subst hrow2
  obtain ⟨v3, vs3, he3, hcv3, hrow3⟩ := convertRow_cons_inv hcv2
  subst hrow3
  obtain ⟨v4, vs4, he4, hcv4, hrow4⟩ := convertRow_cons_inv hcv3
  subst hrow4
  obtain ⟨v5, vs5, he5, hcv5, hrow5⟩ := convertRow_cons_inv hcv4
  subst hrow5
  obtain ⟨v6, vs6, he6, hcv6, hrow6⟩ := convertRow_cons_inv hcv5
  subst hrow6
  obtain ⟨v7, vs7, he7, hcv7, hrow7⟩ := convertRow_cons_inv hcv6
  subst hrow7
  obtain ⟨v8, vs8, he8, hcv8, hrow8⟩ := convertRow_cons_inv hcv7
  subst hrow8
  have hvs8 : vs8 = [] := by
    unfold Analyze.convertRow at hcv8
    simp at hcv8
    exact hcv8
  subst hvs8
  simp only [Analyze.toStatsRow, Option.bind_eq_bind, Option.bind_eq_some,
    Option.pure_def, Option.some.injEq] at hto
  obtain ⟨e', he', x', hx', b', hb', s', hs', i', hi', g', hg', m', hm', r', hr',
    gt', hgt', hsr⟩ := hto
  have hcmem : ∀ c ∈ [c0, c1, c2, c3, c4, c5, c6, c7, c8], '\t' ∉ c := by
    intro c hcm
    exact no_tab_of_mem_splitTab (hc ▸ hcm)
  refine ⟨?_, ?_, ?_, ?_⟩
  · intro s hs
    rw [← hsr] at hs
    simp at hs
    rw [hs] at he'
    have hv0 := asText_vstr_inv he'
    rw [hv0] at he0
    obtain ⟨hsc, hcne⟩ := convertValue_vstr_inv he0
    refine ⟨by rw [hsc]; exact hcne, by rw [hsc]; exact hcmem c0 (by simp), ?_⟩
    intro ch hch
    rw [hsc] at hch
    cases hL : stripNlSp raw with
    | nil => exact absurd hL hne
    | cons lc Lr =>
      by_cases hlc : lc = '\t'
      · exfalso
        apply hcne
        rw [hL] at hc
        rw [splitTab, if_pos hlc] at hc
        injection hc with h1 _
        exact h1.symm
      · obtain ⟨t, rest, hsp⟩ := splitTab_cons_of_ne_tab Lr hlc
        rw [hL, hsp] at hc
        injection hc with h1 _
        have hhead : c0.head? = some lc := by rw [← h1]; rfl
        rw [hhead] at hch
        injection hch with hch2
        rw [← hch2]
        have hh2 : (stripNlSp raw).head? = some lc := by rw [hL]; rfl
        unfold stripNlSp at hh2
        exact strip_head_not hh2
  · intro s hs
    rw [← hsr] at hs
    simp at hs
    rw [hs] at hx'
    have hv := asText_vstr_inv hx'
    rw [hv] at he1
    obtain ⟨hsc, hcne⟩ := convertValue_vstr_inv he1
    exact ⟨by rw [hsc]; exact hcne, by rw [hsc]; exact hcmem c1 (by simp)⟩
  · intro s hs
    rw [← hsr] at hs
    simp at hs
    rw [hs] at hb'
    have hv := asText_vstr_inv hb'
    rw [hv] at he2
    obtain ⟨hsc, hcne⟩ := convertValue_vstr_inv he2
    exact ⟨by rw [hsc]; exact hcne, by rw [hsc]; exact hcmem c2 (by simp)⟩
  · intro s hs
    rw [← hsr] at hs
    simp at hs
    rw [hs] at hs'
    have hv := asText_vstr_inv hs'
    rw [hv] at he3
    obtain ⟨hsc, hcne⟩ := convertValue_vstr_inv he3
    exact ⟨by rw [hsc]; exact hcne, by rw [hsc]; exact hcmem c3 (by simp)⟩

theorem mapM_option_inv {α β : Type} :
    ∀ (data : List α) (f : α → Option β) (rows : List β),
      data.mapM f = some rows → ∀ r ∈ rows, ∃ a ∈ data, f a = some r := by
  intro data
  induction data with
  | nil =>
    intro f rows h r hr
    rw [List.mapM_nil] at h
    simp at h
    subst h
    simp at hr
  | cons a as ih =>
    intro f rows h r hr
    rw [List.mapM_cons] at h
    cases hfa : f a with
    | none => rw [hfa] at h; simp at h
    | some b =>
      rw [hfa] at h
      cases hrest : as.mapM f with
      | none => rw [hrest] at h; simp at h
      | some bs =>
        rw [hrest] at h
        simp at h
        rw [← h] at hr
        rcases List.mem_cons.mp hr with rfl | hr2
        · exact ⟨a, List.mem_cons_self a as, hfa⟩
        · obtain ⟨a', ha', hfa'⟩ := ih f bs hrest r hr2
          exact ⟨a', List.mem_cons_of_mem a ha', hfa'⟩

theorem mapM_option_all {α β : Type} :
    ∀ (data : List α) (f : α → Option β) (g : α → β),
      (∀ a ∈ data, f a = some (g a)) → data.mapM f = some (data.map g) := by
  intro data
  induction data with
  | nil => intro f g _; rfl
  | cons a as ih =>
    intro f g h
    rw [List.mapM_cons, h a (List.mem_cons_self a as),
      ih f g (fun x hx => h x (List.mem_cons_of_mem a hx))]
    rfl

theorem loadTable_wf :
    ∀ (lines : List Str) (rows : List Analyze.StatsRow),
      Analyze.loadTable lines = some rows → ∀ r ∈ rows, Analyze.RowWF r := by
  intro lines rows h r hr
  unfold Analyze.loadTable at h
  cases hf : Analyze.fetchResults lines with
  | none => rw [hf] at h; simp at h
  | some p =>
    obtain ⟨hd, data⟩ := p
    rw [hf] at h
    dsimp only at h
    by_cases hhd : hd = some Analyze.STD_HEADER
    · rw [if_pos hhd] at h
      subst hhd
      obtain ⟨row, hrow, hto⟩ := mapM_option_inv data Analyze.toStatsRow rows h r hr
      obtain ⟨raw, hraw1, hraw2, hraw3⟩ := fetchResults_prov lines _ data hf row hrow
      exact loaded_row_wf raw row r hraw1 hraw2 hraw3 hto
    · rw [if_neg hhd] at h
      simp at h

theorem mem_baseQuery {rows : List Analyze.StatsRow} {r : Analyze.StatsRow}
    (h : r ∈ Analyze.baseQuery rows) : r ∈ rows ∧ r.runtime.isSome = true := by
  unfold Analyze.baseQuery at h
  rw [(sortBy_perm _ _).mem_iff] at h
  exact List.mem_filter.mp h

theorem fetchGo_render :
    ∀ (rs : List Analyze.StatsRow) (acc : List (List Value)),
      (∀ r ∈ rs, Analyze.RowWF r ∧ Analyze.noNulls r = true) →
      Analyze.fetchGo (rs.map (fun r => Analyze.renderRow r.cells))
          (some Analyze.STD_HEADER) acc =
        some (some Analyze.STD_HEADER, acc.reverse ++ rs.map Analyze.StatsRow.cells) := by
  intro rs
  induction rs with
  | nil => intro acc _; simp [Analyze.fetchGo]
  | cons r rs' ih =>
    intro acc hall
    obtain ⟨hwf, hnn⟩ := hall r (List.mem_cons_self r rs')
    obtain ⟨hstrip, hsplit, hlen, hconv, _⟩ := row_roundtrip r hwf hnn
    have hne : Analyze.renderRow r.cells ≠ [] := by
      intro h0
      rw [h0] at hsplit
      have : (splitTab ([] : Str)).length = (r.cells.map Analyze.renderValue).length := by
        rw [hsplit]
      rw [hlen] at this
      simp [splitTab, Analyze.STD_HEADER] at this
    rw [List.map_cons]
    unfold Analyze.fetchGo
    rw [hstrip, if_neg hne]
    dsimp only
    rw [hsplit, hlen, if_pos rfl, hconv]
    dsimp only
    rw [ih (r.cells :: acc) (fun x hx => hall x (List.mem_cons_of_mem r hx))]
    simp


theorem mapM_cells :
    ∀ (rs : List Analyze.StatsRow),
      (∀ r ∈ rs, Analyze.toStatsRow r.cells = some r) →
      (rs.map Analyze.StatsRow.cells).mapM Analyze.toStatsRow = some rs := by
  intro rs
  induction rs with
  | nil => intro _; rfl
  | cons r rs' ih =>
    intro h
    rw [List.map_cons, List.mapM_cons, h r (List.mem_cons_self r rs'),
      ih (fun x hx => h x (List.mem_cons_of_mem r hx))]
    rfl

/--
Claim C5, counterexample: a loaded BASE row with a `NULL` cell breaks the
round trip — `str(None)` prints the text `None`, and re-loading `None` into
the integer `memory` column makes `int()` raise, so the second run aborts
instead of reproducing the BASE row set.
-/
theorem C5_counterexample :
    Analyze.loadTable
        ["experiment\texample\tbackend\tsplit\titeration\tgroundrules\tmemory\truntime\tgrounding_time".toList,
         "e\tx\tb\t0\t0\t1\t\t3\t4".toList] = some [Analyze.wrow4] ∧
    Analyze.baseQuery [Analyze.wrow4] = [Analyze.wrow4] ∧
    Analyze.loadTable (Analyze.baseOutputLines [Analyze.wrow4]) = none := by
  refine ⟨by decide, by decide, by decide⟩

/--
Claim C5, amended: the BASE round trip holds for tables whose BASE rows are
free of `NULL` cells — rendering the BASE output (header plus rows) as
tab-separated text, re-loading it, and re-running BASE reproduces exactly the
original BASE row set.  (A `NULL` in any column breaks the round trip, since
it prints as the text `None`.)
-/
theorem C5_base_round_trip :
    ∀ (lines : List Str) (rows : List Analyze.StatsRow),
      Analyze.loadTable lines = some rows →
      (∀ r ∈ Analyze.baseQuery rows, Analyze.noNulls r = true) →
      Analyze.loadTable (Analyze.baseOutputLines rows) =
        some (Analyze.baseQuery rows) ∧
      (Analyze.baseQuery (Analyze.baseQuery rows)).Perm (Analyze.baseQuery rows) := by
  intro lines rows hload hnn
  have hwf : ∀ r ∈ rows, Analyze.RowWF r := loadTable_wf lines rows hload
  have hall : ∀ r ∈ Analyze.baseQuery rows, Analyze.RowWF r ∧ Analyze.noNulls r = true :=
    fun r hr => ⟨hwf r (mem_baseQuery hr).1, hnn r hr⟩
  constructor
  · have h1 : Analyze.fetchResults (Analyze.baseOutputLines rows) =
        some (some Analyze.STD_HEADER, (Analyze.baseQuery rows).map Analyze.StatsRow.cells) := by
      unfold Analyze.baseOutputLines Analyze.fetchResults
      unfold Analyze.fetchGo
      rw [if_neg (show ¬(stripNlSp (joinTab Analyze.STD_HEADER) = []) from by decide)]
      dsimp only
      rw [show splitTab (stripNlSp (joinTab Analyze.STD_HEADER)) = Analyze.STD_HEADER
        from by decide]
      rw [fetchGo_render (Analyze.baseQuery rows) [] hall]
      simp
    unfold Analyze.loadTable
    rw [h1]
    dsimp only
    rw [if_pos rfl]
    exact mapM_cells _ (fun r hr => (row_roundtrip r (hall r hr).1 (hall r hr).2).2.2.2.2)
  · have hfil : (Analyze.baseQuery rows).filter (fun r => r.runtime.isSome) =
        Analyze.baseQuery rows :=
      List.filter_eq_self.mpr (fun r hr => (mem_baseQuery hr).2)
    show (Analyze.sortBy Analyze.leGroupCols
      ((Analyze.baseQuery rows).filter (fun r => r.runtime.isSome))).Perm
      (Analyze.baseQuery rows)
    rw [hfil]
    exact sortBy_perm _ _

/-- Witness for C5: a one-row table with no `NULL` cells round-trips exactly. -/
theorem C5_witness :
    Analyze.loadTable
        ["experiment\texample\tbackend\tsplit\titeration\tgroundrules\tmemory\truntime\tgrounding_time".toList,
         "e\tx\tb\t0\t0\t1\t2\t3\t4".toList] = some [Analyze.wrow5] ∧
    (∀ r ∈ Analyze.baseQuery [Analyze.wrow5], Analyze.noNulls r = true) ∧
    Analyze.loadTable (Analyze.baseOutputLines [Analyze.wrow5]) =
      some (Analyze.baseQuery [Analyze.wrow5]) ∧
    (Analyze.baseQuery (Analyze.baseQuery [Analyze.wrow5])).Perm
      (Analyze.baseQuery [Analyze.wrow5]) :=
  ⟨by decide, by decide,
   (C5_base_round_trip
     ["experiment\texample\tbackend\tsplit\titeration\tgroundrules\tmemory\truntime\tgrounding_time".toList,
      "e\tx\tb\t0\t0\t1\t2\t3\t4".toList]
     [Analyze.wrow5] (by decide) (by decide)).1,
   (C5_base_round_trip
     ["experiment\texample\tbackend\tsplit\titeration\tgroundrules\tmemory\truntime\tgrounding_time".toList,
      "e\tx\tb\t0\t0\t1\t2\t3\t4".toList]
     [Analyze.wrow5] (by decide) (by decide)).2⟩
